import Mathlib

/-!
# Verification of the GLTF editor core (editor.py)

This file gives a shallow embedding of the core of the GLTF editor:

* the accessor codec (`ACCESSOR_TYPE_MULTIPLIER`, `COMPONENT_TYPE`,
  `COMPONENT_FORMAT`, `accessor_struct`, packing/unpacking),
* the buffer materializer (`_add_accessor_data`, `_remove_accessor_data`),
* the representation toggler (the three mode setters and their transforms),
* the mesh topology splitter (`_find_connected_components`, `find_with_union`,
  `split_disconnected_mesh`) and the multiprimitive expander
  (`expand_multiprimitive_mesh`),

together with theorems checking the specification's claims about them.

Modelling conventions:

* The mutable JSON tree is embedded as a `GltfState` with explicit heaps for
  the objects that the source manipulates by identity (nodes, meshes,
  primitives, accessors): a Python object is a heap index, `is` comparison is
  index equality, and `dict.copy()` allocates a fresh heap slot.  Buffers and
  buffer views are only ever addressed through their top-level arrays by
  position, so they are stored as plain values in those arrays.
* Python exceptions are modelled by `Except Err`; a raise aborts the whole
  operation (the partially mutated Python state after an uncaught exception is
  never observed by the program, so it is not modelled).
* Byte strings are `List Nat` (each entry one byte).  The binary codec is
  embedded exactly for the five integer component formats; the IEEE-754 float
  format has no bit-level model here, so decoding or encoding a FLOAT accessor
  is mapped to a distinguished error.  All concrete documents used in the
  theorems below therefore use integer component types.
* Machine integers do not occur: Python integers are unbounded, and are
  modelled as `Int`/`Nat` directly.
-/

/-- Python exceptions raised by the editor, plus two modelling artifacts:
`floatUnsupported` marks the unmodelled IEEE-754 codec and `outOfFuel` marks
exhaustion of the fuel that bounds the recursion of `split_disconnected_mesh`.
`notImplemented` is the `NotImplementedError` that the source raises for a
primitive mode other than 4; the specification names it
`UnsupportedPrimitiveMode`. -/
inductive Err where
  | keyError
  | indexError
  | typeError
  | valueError
  | structError
  | fileNotFound
  | notImplemented
  | floatUnsupported
  | outOfFuel
deriving DecidableEq, Repr

/-- Dictionary / attribute access that raises `KeyError` when absent. -/
def req {α : Type} (o : Option α) : Except Err α :=
  match o with
  | some a => Except.ok a
  | none => Except.error Err.keyError

/-- List subscription that raises `IndexError` when out of range. -/
def arrGet {α : Type} (l : List α) (i : Nat) : Except Err α :=
  match l[i]? with
  | some a => Except.ok a
  | none => Except.error Err.indexError

/-- Source `align`: round `n` up to a multiple of `alignment`. -/
def align (n : Nat) (alignment : Nat) : Nat :=
  ((n + alignment - 1) / alignment) * alignment

/-- Recursion worker for `pyGroupby`, structurally recursive on a fuel that
the wrapper instantiates with the list length (one group consumes at least
one element, so the fuel never runs out first). -/
def pyGroupbyF {α : Type} : Nat → List α → Nat → List (List α)
  | 0, _, _ => []
  | Nat.succ fuel, l, n =>
    if n = 0 ∨ l.length < n then []
    else l.take n :: pyGroupbyF fuel (l.drop n) n

/-- Source `groupby`: repeatedly draw `n` items from the iterator, yielding
each complete group and silently discarding a trailing partial group when the
iterator runs dry mid-group.  The source loops forever for `n = 0`; the
editor only ever calls it with `n = 3`, and the embedding returns `[]` for
`n = 0`. -/
def pyGroupby {α : Type} (l : List α) (n : Nat) : List (List α) :=
  pyGroupbyF l.length l n

/-- Source `find`: index of the first list entry that is the given object
(identity comparison); raises `ValueError` when absent.  Objects are heap
indices here, so identity is equality of indices. -/
def pyFind (x : Nat) (l : List Nat) : Except Err Nat :=
  match l with
  | [] => Except.error Err.valueError
  | y :: ys =>
    if y = x then Except.ok 0
    else (pyFind x ys).map (· + 1)

/-- Lookup in a dict built by a comprehension over an enumeration, such as
the `mesh_ids` / `node_ids` / `accessor_ids` maps: a key occurring several
times keeps the position of its last occurrence. -/
def dictFind (ids : List Nat) (x : Nat) : Option Nat :=
  match ids with
  | [] => none
  | a :: rest =>
    match dictFind rest x with
    | some j => some (j + 1)
    | none => if a = x then some 0 else none

/-- First-match lookup in an association list; used for Python dicts that are
only ever extended with keys not already present, so first match equals the
unique match. -/
def alistFind {α β : Type} [DecidableEq α] (l : List (α × β)) (k : α) : Option β :=
  match l with
  | [] => none
  | (k', v) :: rest => if k' = k then some v else alistFind rest k

/-- Lexicographic order on sort keys, as used by Python `sorted` with a
two-component tuple key. -/
def pairLe (a b : Nat × Nat) : Bool :=
  a.1 < b.1 || (a.1 = b.1 && a.2 ≤ b.2)

/-- Insert into a sorted list after all entries with a key less than or equal
to the new entry's key, preserving the relative order of equal keys. -/
def insertByKey {α : Type} (key : α → Nat × Nat) (x : α) : List α → List α
  | [] => [x]
  | y :: ys => if pairLe (key y) (key x) then y :: insertByKey key x ys else x :: y :: ys

/-- Stable sort by a two-component key, as Python `sorted(lst, key)`. -/
def sortByKey {α : Type} (key : α → Nat × Nat) (l : List α) : List α :=
  l.foldl (fun acc x => insertByKey key x acc) []

/-! ## Accessor codec -/

/-- Source `ACCESSOR_TYPE_MULTIPLIER` table; lookup failure is `KeyError`. -/
def ACCESSOR_TYPE_MULTIPLIER (t : String) : Option Nat :=
  match t with
  | "SCALAR" => some 1
  | "VEC2" => some 2
  | "VEC3" => some 3
  | "VEC4" => some 4
  | "MAT2" => some 4
  | "MAT3" => some 9
  | "MAT4" => some 16
  | _ => none

/-- Source `COMPONENT_TYPE` table. -/
def COMPONENT_TYPE (c : Nat) : Option String :=
  match c with
  | 5120 => some "BYTE"
  | 5121 => some "UNSIGNED_BYTE"
  | 5122 => some "SHORT"
  | 5123 => some "UNSIGNED_SHORT"
  | 5125 => some "UNSIGNED_INT"
  | 5126 => some "FLOAT"
  | _ => none

/-- Source `COMPONENT_FORMAT` table. -/
def COMPONENT_FORMAT (n : String) : Option String :=
  match n with
  | "BYTE" => some "b"
  | "UNSIGNED_BYTE" => some "B"
  | "SHORT" => some "h"
  | "UNSIGNED_SHORT" => some "H"
  | "UNSIGNED_INT" => some "I"
  | "FLOAT" => some "f"
  | _ => none

/-- Byte width of one scalar of a struct format character. -/
def fmtSize (fmt : String) : Nat :=
  match fmt with
  | "b" => 1
  | "B" => 1
  | "h" => 2
  | "H" => 2
  | "I" => 4
  | "f" => 4
  | _ => 0

/-- A compiled `struct.Struct` of the shape built by `accessor_struct`:
little-endian, `mult` repetitions of one format character. -/
structure PyStruct where
  fmt : String
  mult : Nat
deriving DecidableEq, Repr

/-- Total byte size of one element, `struct.Struct.size`. -/
def PyStruct.size (s : PyStruct) : Nat := s.mult * fmtSize s.fmt

/-- Decode one little-endian scalar from `width` bytes (unsigned value). -/
def leValue (bytes : List Nat) : Nat :=
  match bytes with
  | [] => 0
  | b :: rest => b + 256 * leValue rest

/-- Decode one scalar of format `fmt` from its bytes.  The FLOAT format has
no bit-level model here (IEEE-754 is out of scope); it decodes to the
modelling error `floatUnsupported`. -/
def decodeScalar (fmt : String) (bytes : List Nat) : Except Err Int :=
  let u : Int := Int.ofNat (leValue bytes)
  match fmt with
  | "b" => Except.ok (if u ≥ 128 then u - 256 else u)
  | "B" => Except.ok u
  | "h" => Except.ok (if u ≥ 32768 then u - 65536 else u)
  | "H" => Except.ok u
  | "I" => Except.ok u
  | "f" => Except.error Err.floatUnsupported
  | _ => Except.error Err.structError

/-- Little-endian bytes of an unsigned value. -/
def leBytes (width : Nat) (v : Nat) : List Nat :=
  match width with
  | 0 => []
  | w + 1 => (v % 256) :: leBytes w (v / 256)

/-- Encode one scalar of format `fmt`; `struct.pack` raises for values out of
the format's range.  FLOAT is the unmodelled IEEE-754 case. -/
def encodeScalar (fmt : String) (v : Int) : Except Err (List Nat) :=
  match fmt with
  | "b" =>
    if -128 ≤ v ∧ v ≤ 127 then Except.ok (leBytes 1 ((v + 256) % 256).toNat)
    else Except.error Err.structError
  | "B" =>
    if 0 ≤ v ∧ v ≤ 255 then Except.ok (leBytes 1 v.toNat)
    else Except.error Err.structError
  | "h" =>
    if -32768 ≤ v ∧ v ≤ 32767 then Except.ok (leBytes 2 ((v + 65536) % 65536).toNat)
    else Except.error Err.structError
  | "H" =>
    if 0 ≤ v ∧ v ≤ 65535 then Except.ok (leBytes 2 v.toNat)
    else Except.error Err.structError
  | "I" =>
    if 0 ≤ v ∧ v ≤ 4294967295 then Except.ok (leBytes 4 v.toNat)
    else Except.error Err.structError
  | "f" => Except.error Err.floatUnsupported
  | _ => Except.error Err.structError

/-- `struct.Struct.iter_unpack`: requires the byte string length to be a
multiple of the element size (checked eagerly on the call, raising
`struct.error` otherwise), then decodes element by element, each element a
tuple of `mult` scalars. -/
def iterUnpack (st : PyStruct) (data : List Nat) : Except Err (List (List Int)) :=
  if st.size = 0 then Except.error Err.structError
  else if data.length % st.size ≠ 0 then Except.error Err.structError
  else (pyGroupby data st.size).mapM (fun elemBytes =>
    (pyGroupby elemBytes (fmtSize st.fmt)).mapM (decodeScalar st.fmt))

/-- Pack one tuple with `struct.pack_into`; the argument count must equal the
struct's repetition count. -/
def packTuple (st : PyStruct) (tuple : List Int) : Except Err (List Nat) :=
  if tuple.length ≠ st.mult then Except.error Err.structError
  else do
    let parts ← tuple.mapM (encodeScalar st.fmt)
    pure parts.flatten

/-- Source `pack_all`: pack each tuple at consecutive offsets `i * size` into
a buffer preallocated to exactly `len(data) * size` bytes; equivalently the
concatenation of the packed tuples. -/
def packAll (st : PyStruct) (data : List (List Int)) : Except Err (List Nat) := do
  let parts ← data.mapM (packTuple st)
  pure parts.flatten

/-- Source `component_max`: per-axis maximum over a non-empty list of
tuples; an empty list or a tuple shorter than the first raises
`IndexError`. -/
def component_max (vec2d : List (List Int)) : Except Err (List Int) := do
  let first ← match vec2d.head? with
    | some f => Except.ok f
    | none => Except.error Err.indexError
  (List.range first.length).mapM (fun axis => do
    let vals ← vec2d.mapM (fun vec => arrGet vec axis)
    match vals with
    | [] => Except.error Err.valueError
    | v :: rest => pure (rest.foldl max v))

/-- Source `component_min`: per-axis minimum, dual to `component_max`. -/
def component_min (vec2d : List (List Int)) : Except Err (List Int) := do
  let first ← match vec2d.head? with
    | some f => Except.ok f
    | none => Except.error Err.indexError
  (List.range first.length).mapM (fun axis => do
    let vals ← vec2d.mapM (fun vec => arrGet vec axis)
    match vals with
    | [] => Except.error Err.valueError
    | v :: rest => pure (rest.foldl min v))

/-! ## Document model

Nodes, meshes, primitives and accessors are manipulated by object identity in
the source (`is` comparisons, `id()`-keyed dicts, `.copy()`), so each lives in
an explicit heap and the top-level arrays hold heap indices.  A cross-entity
link is either an integer index into a top-level array or a direct reference,
carried as the target's heap index. -/

/-- A node-to-mesh, node-to-child or primitive-to-accessor link: an integer
index into the owning top-level array, or a direct object reference (a heap
index). -/
inductive Link where
  | idx (i : Nat)
  | ref (r : Nat)
deriving DecidableEq, Repr

/-- A node object: `name` and `children` are optional dict keys, `mesh` is an
optional link. -/
structure NodeObj where
  name : Option String
  mesh : Option Link
  children : Option (List Link)
deriving DecidableEq, Repr

/-- A mesh object: the `primitives` key holds primitive heap indices; the
source reads it both with `.get` (absent means empty) and directly (absent
raises `KeyError`), so it is optional here. -/
structure MeshObj where
  name : Option String
  primitives : Option (List Nat)
deriving DecidableEq, Repr

/-- Python `len` of a mesh dict: the number of keys present.  Only the
modelled keys exist in the embedding. -/
def MeshObj.pyLen (m : MeshObj) : Nat :=
  (if m.name.isSome then 1 else 0) + (if m.primitives.isSome then 1 else 0)

/-- A primitive object: `mode`, named attribute links (dict in insertion
order) and an optional `indices` link. -/
structure PrimObj where
  mode : Option Nat
  attributes : List (String × Link)
  indices : Option Link
deriving DecidableEq, Repr

/-- An accessor object.  `bufferView`, `byteOffset`, `count`,
`componentType` and `type` are required by every code path that reads them;
`min`, `max` and the materialized `data` come and go at runtime. -/
structure AccObj where
  bufferView : Nat
  byteOffset : Nat
  count : Nat
  componentType : Nat
  type : String
  minv : Option (List Int)
  maxv : Option (List Int)
  data : Option (List Nat)
deriving DecidableEq, Repr

/-- A buffer: URI of the side file and optional materialized bytes. -/
structure Buffer where
  uri : Option String
  byteLength : Nat
  data : Option (List Nat)
deriving DecidableEq, Repr

/-- A buffer view: a byte range of one buffer, plus optional materialized
bytes. -/
structure BufferView where
  buffer : Nat
  byteOffset : Nat
  byteLength : Nat
  data : Option (List Nat)
deriving DecidableEq, Repr

/-- The whole editor state: the JSON document (top-level arrays over the
object heaps), the side files keyed by URI, and the three mode flags of the
`Gltf` object. -/
structure GltfState where
  nodes : List Nat
  meshes : List Nat
  accessors : List Nat
  bufferViews : List BufferView
  buffers : List Buffer
  nodeHeap : List NodeObj
  meshHeap : List MeshObj
  primHeap : List PrimObj
  accHeap : List AccObj
  files : List (String × List Nat)
  nmr : Bool
  adata : Bool
  aref : Bool
deriving DecidableEq, Repr

/-- Read a node object; an invalid heap index is a modelling artifact and
maps to `KeyError`. -/
def GltfState.getNode (s : GltfState) (i : Nat) : Except Err NodeObj :=
  match s.nodeHeap[i]? with
  | some n => Except.ok n
  | none => Except.error Err.keyError

/-- Write a node object back to its heap slot. -/
def GltfState.setNode (s : GltfState) (i : Nat) (n : NodeObj) : GltfState :=
  { s with nodeHeap := s.nodeHeap.set i n }

/-- Read a mesh object. -/
def GltfState.getMesh (s : GltfState) (i : Nat) : Except Err MeshObj :=
  match s.meshHeap[i]? with
  | some m => Except.ok m
  | none => Except.error Err.keyError

/-- Write a mesh object. -/
def GltfState.setMesh (s : GltfState) (i : Nat) (m : MeshObj) : GltfState :=
  { s with meshHeap := s.meshHeap.set i m }

/-- Read a primitive object. -/
def GltfState.getPrim (s : GltfState) (i : Nat) : Except Err PrimObj :=
  match s.primHeap[i]? with
  | some p => Except.ok p
  | none => Except.error Err.keyError

/-- Write a primitive object. -/
def GltfState.setPrim (s : GltfState) (i : Nat) (p : PrimObj) : GltfState :=
  { s with primHeap := s.primHeap.set i p }

/-- Read an accessor object. -/
def GltfState.getAcc (s : GltfState) (i : Nat) : Except Err AccObj :=
  match s.accHeap[i]? with
  | some a => Except.ok a
  | none => Except.error Err.keyError

/-- Write an accessor object. -/
def GltfState.setAcc (s : GltfState) (i : Nat) (a : AccObj) : GltfState :=
  { s with accHeap := s.accHeap.set i a }

/-- Allocate a fresh mesh object, returning its heap index. -/
def GltfState.allocMesh (s : GltfState) (m : MeshObj) : GltfState × Nat :=
  ({ s with meshHeap := s.meshHeap ++ [m] }, s.meshHeap.length)

/-- Allocate a fresh node object. -/
def GltfState.allocNode (s : GltfState) (n : NodeObj) : GltfState × Nat :=
  ({ s with nodeHeap := s.nodeHeap ++ [n] }, s.nodeHeap.length)

/-- Allocate a fresh primitive object. -/
def GltfState.allocPrim (s : GltfState) (p : PrimObj) : GltfState × Nat :=
  ({ s with primHeap := s.primHeap ++ [p] }, s.primHeap.length)

/-- Allocate a fresh accessor object. -/
def GltfState.allocAcc (s : GltfState) (a : AccObj) : GltfState × Nat :=
  ({ s with accHeap := s.accHeap ++ [a] }, s.accHeap.length)

/-! ## Representation toggler -/

/-- The per-node transform of `Gltf._set_node_mesh_references`: replace each
child index by the node object at that index (first, as in the source), then
the mesh index by the mesh object at that index.  Subscripting a top-level
array with something that is already an object is a `TypeError`, an
out-of-range index an `IndexError`. -/
def derefNodeF (s1 : GltfState) (node : NodeObj) : Except Err NodeObj := do
  let node ← match node.children with
    | none => pure node
    | some ch => do
      let ch2 ← ch.mapM (fun l =>
        match l with
        | Link.idx i => (arrGet s1.nodes i).map Link.ref
        | Link.ref _ => Except.error Err.typeError)
      pure { node with children := some ch2 }
  match node.mesh with
  | none => pure node
  | some (Link.idx i) => do
    let t ← arrGet s1.meshes i
    pure { node with mesh := some (Link.ref t) }
  | some (Link.ref _) => Except.error Err.typeError

/-- The per-node transform of `Gltf._set_node_mesh_indices`: replace the
mesh reference (first, as in the source), then each child reference, by its
position in the identity-keyed dict over the corresponding top-level array
(a duplicate identity keeps its last position).  A reference whose identity
is not in the dict (including a link that is still an integer index) raises
`KeyError`.  The source's `assert != -1` checks are vacuous since dict
values are array positions. -/
def reindexNodeF (s1 : GltfState) (node : NodeObj) : Except Err NodeObj := do
  let node ← match node.mesh with
    | none => pure node
    | some (Link.ref r) =>
      match dictFind s1.meshes r with
      | some i => pure { node with mesh := some (Link.idx i) }
      | none => Except.error Err.keyError
    | some (Link.idx _) => Except.error Err.keyError
  match node.children with
  | none => pure node
  | some ch => do
    let ch2 ← ch.mapM (fun l =>
      match l with
      | Link.ref r =>
        match dictFind s1.nodes r with
        | some i => pure (Link.idx i)
        | none => Except.error Err.keyError
      | Link.idx _ => Except.error Err.keyError)
    pure { node with children := some ch2 }

/-- One iteration of a `for node in nodes` loop that rewrites the node
in place: read the object, transform it, write it back. -/
def nodeStepM (F : GltfState → NodeObj → Except Err NodeObj)
    (s1 : GltfState) (nid : Nat) : Except Err GltfState := do
  let node ← s1.getNode nid
  let node ← F s1 node
  pure (s1.setNode nid node)

/-- Source `Gltf._set_node_mesh_references`: dereference every node's links. -/
def setNodeMeshReferencesCore (s : GltfState) : Except Err GltfState :=
  s.nodes.foldlM (nodeStepM derefNodeF) s

/-- Source `Gltf._set_node_mesh_indices`: reindex every node's links. -/
def setNodeMeshIndicesCore (s : GltfState) : Except Err GltfState :=
  s.nodes.foldlM (nodeStepM reindexNodeF) s

/-- Source `node_mesh_reference` setter: a no-op when the new value equals
the stored flag, otherwise store the flag and run the matching transform. -/
def setNodeMeshReference (s : GltfState) (mode : Bool) : Except Err GltfState :=
  if mode = s.nmr then Except.ok s
  else
    let s := { s with nmr := mode }
    if mode then setNodeMeshReferencesCore s else setNodeMeshIndicesCore s

/-- The per-primitive transform of `Gltf._add_accessor_reference`: replace
each attribute index and the optional indices index by the accessor object
at that index. -/
def derefPrimF (s2 : GltfState) (prim : PrimObj) : Except Err PrimObj := do
  let attrs ← prim.attributes.mapM (fun (name, l) =>
    match l with
    | Link.idx i => (arrGet s2.accessors i).map (fun t => (name, Link.ref t))
    | Link.ref _ => Except.error Err.typeError)
  let prim := { prim with attributes := attrs }
  match prim.indices with
  | none => pure prim
  | some (Link.idx i) => do
    let t ← arrGet s2.accessors i
    pure { prim with indices := some (Link.ref t) }
  | some (Link.ref _) => Except.error Err.typeError

/-- The per-primitive transform of `Gltf._remove_accessor_reference`:
replace each attribute reference and the optional indices reference by its
position in the identity-keyed dict over the accessor array. -/
def reindexPrimF (s2 : GltfState) (prim : PrimObj) : Except Err PrimObj := do
  let attrs ← prim.attributes.mapM (fun (name, l) =>
    match l with
    | Link.ref r =>
      match dictFind s2.accessors r with
      | some i => pure (name, Link.idx i)
      | none => Except.error Err.keyError
    | Link.idx _ => Except.error Err.keyError)
  let prim := { prim with attributes := attrs }
  match prim.indices with
  | none => pure prim
  | some (Link.ref r) =>
    match dictFind s2.accessors r with
    | some i => pure { prim with indices := some (Link.idx i) }
    | none => Except.error Err.keyError
  | some (Link.idx _) => Except.error Err.keyError

/-- One iteration of a `for primitive in mesh["primitives"]` loop that
rewrites the primitive in place. -/
def primStepM (F : GltfState → PrimObj → Except Err PrimObj)
    (s2 : GltfState) (pid : Nat) : Except Err GltfState := do
  let prim ← s2.getPrim pid
  let prim ← F s2 prim
  pure (s2.setPrim pid prim)

/-- One iteration of a `for mesh in meshes` loop that rewrites every
primitive of the mesh. -/
def primsStepM (F : GltfState → PrimObj → Except Err PrimObj)
    (s1 : GltfState) (mid : Nat) : Except Err GltfState := do
  let mesh ← s1.getMesh mid
  let prims ← req mesh.primitives
  prims.foldlM (primStepM F) s1

/-- Source `Gltf._add_accessor_reference`: for every primitive of every mesh
replace each attribute index and the optional indices index by the accessor
object at that index. -/
def addAccessorReferenceCore (s : GltfState) : Except Err GltfState :=
  s.meshes.foldlM (primsStepM derefPrimF) s

/-- Source `Gltf._remove_accessor_reference`: the identity-keyed dict over
the accessor array, then every primitive's attribute and indices references
replaced by their dict positions. -/
def removeAccessorReferenceCore (s : GltfState) : Except Err GltfState :=
  s.meshes.foldlM (primsStepM reindexPrimF) s

/-- Source `accessor_reference` setter. -/
def setAccessorReference (s : GltfState) (reference : Bool) : Except Err GltfState :=
  if reference = s.aref then Except.ok s
  else
    let s := { s with aref := reference }
    if reference then addAccessorReferenceCore s else removeAccessorReferenceCore s

/-- A link that is a plain in-bounds index into an array of length `n` —
the "no dangling indices, index mode" condition on one link. -/
def isIdxLt (l : Link) (n : Nat) : Bool :=
  match l with
  | Link.idx i => i < n
  | Link.ref _ => false

/-- A node of the document has no dangling links: it exists on the heap, and
all its child links and its optional mesh link are in-bounds indices. -/
def nodeOk (s : GltfState) (nid : Nat) : Bool :=
  match s.nodeHeap[nid]? with
  | none => false
  | some n =>
    (n.children.getD []).all (fun l => isIdxLt l s.nodes.length) &&
    (match n.mesh with
     | none => true
     | some l => isIdxLt l s.meshes.length)

/-- A primitive of the document has no dangling links: it exists on the
heap, and all its attribute links and its optional indices link are
in-bounds indices into the accessor array. -/
def primOk (s : GltfState) (pid : Nat) : Bool :=
  match s.primHeap[pid]? with
  | none => false
  | some p =>
    p.attributes.all (fun kv => isIdxLt kv.2 s.accessors.length) &&
    (match p.indices with
     | none => true
     | some l => isIdxLt l s.accessors.length)

/-- The primitive heap indices reached by iterating the given mesh array
slots, in iteration order: `none` when a mesh is missing from the heap or
has no `primitives` key (the situations in which the accessor-reference
transforms raise). -/
def collectPrims (mids : List Nat) (heap : List MeshObj) : Option (List Nat) :=
  match mids with
  | [] => some []
  | mid :: rest => do
    let m ← heap[mid]?
    let ps ← m.primitives
    let restPrims ← collectPrims rest heap
    pure (ps ++ restPrims)

/-! ## Accessor structs and the buffer materializer -/

/-- Source `Gltf.accessor_struct`: compile the struct for an accessor's
`type` and `componentType`, failing with `KeyError` outside the fixed
tables. -/
def accessorStruct (acc : AccObj) : Except Err PyStruct := do
  let multiplier ← req (ACCESSOR_TYPE_MULTIPLIER acc.type)
  let ctName ← req (COMPONENT_TYPE acc.componentType)
  let fmt ← req (COMPONENT_FORMAT ctName)
  pure { fmt := fmt, mult := multiplier }

/-- Python list slice `l[a : a + n]`: clamps at both ends, never raises. -/
def pySlice {α : Type} (l : List α) (a n : Nat) : List α :=
  (l.drop a).take n

/-- Python list subscription with a possibly negative index: a negative
index counts from the end; an index out of range either way raises
`IndexError`. -/
def pyIndex {α : Type} (l : List α) (i : Int) : Except Err α :=
  if 0 ≤ i then arrGet l i.toNat
  else
    let j : Int := (l.length : Int) + i
    if 0 ≤ j then arrGet l j.toNat else Except.error Err.indexError

/-- Side-file lookup by URI. -/
def fileRead (files : List (String × List Nat)) (uri : String) : Except Err (List Nat) :=
  match alistFind files uri with
  | some b => Except.ok b
  | none => Except.error Err.fileNotFound

/-- One iteration of the buffer loop of `Gltf._add_accessor_data`: read the
buffer's bytes from its URI side file; a buffer without `uri` raises
`KeyError` (the source subscripts the key unconditionally). -/
def loadBufferStep (s1 : GltfState) (bi : Nat) : Except Err GltfState := do
  let buf ← arrGet s1.buffers bi
  let uri ← req buf.uri
  let bytes ← fileRead s1.files uri
  pure { s1 with buffers := s1.buffers.set bi { buf with data := some bytes } }

/-- Source `Gltf._add_accessor_data`: read every buffer's bytes from its URI
side file, slice every buffer view's byte range out of its buffer, then
slice every accessor's byte range out of its buffer view using the codec's
element size. -/
def addAccessorDataCore (s : GltfState) : Except Err GltfState := do
  let s ← (List.range s.buffers.length).foldlM loadBufferStep s
  let s ← (List.range s.bufferViews.length).foldlM (fun s1 vi => do
    let bv ← arrGet s1.bufferViews vi
    let buf ← arrGet s1.buffers bv.buffer
    let bufData ← req buf.data
    let slice := pySlice bufData bv.byteOffset bv.byteLength
    pure { s1 with bufferViews := s1.bufferViews.set vi { bv with data := some slice } }) s
  s.accessors.foldlM (fun s1 aid => do
    let acc ← s1.getAcc aid
    let bv ← arrGet s1.bufferViews acc.bufferView
    let st ← accessorStruct acc
    let bvData ← req bv.data
    let slice := pySlice bvData acc.byteOffset (acc.count * st.size)
    pure (s1.setAcc aid { acc with data := some slice })) s

/-- Accessor sort order of the repack: ascending `(bufferView, byteOffset)`,
stable.  The keys are read from the heap before sorting. -/
def sortedAccIds (s : GltfState) : Except Err (List Nat) := do
  let pairs ← s.accessors.mapM (fun aid => do
    let a ← s.getAcc aid
    pure (aid, (a.bufferView, a.byteOffset)))
  pure ((sortByKey Prod.snd pairs).map Prod.fst)

/-- Buffer-view sort order of the repack: ascending `(buffer, byteOffset)`
over the array positions, stable. -/
def sortedViewIdxs (s : GltfState) : List Nat :=
  let pairs := (List.range s.bufferViews.length).map (fun vi =>
    match s.bufferViews[vi]? with
    | some bv => (vi, (bv.buffer, bv.byteOffset))
    | none => (vi, (0, 0)))
  (sortByKey Prod.snd pairs).map Prod.fst

/-- One iteration of the accessor loop of the repack: move the accessor's
bytes to the 4-byte-aligned end of its buffer view, record the new
`byteOffset`, and delete the accessor's `data` key. -/
def repackAccStep (s1 : GltfState) (aid : Nat) : Except Err GltfState := do
  let acc ← s1.getAcc aid
  let bv ← arrGet s1.bufferViews acc.bufferView
  let bvData ← req bv.data
  let newOff := align bvData.length 4
  let padding := newOff - bvData.length
  let accData ← req acc.data
  let bvData2 := bvData ++ List.replicate padding 0 ++ accData
  let s1 := { s1 with
    bufferViews := s1.bufferViews.set acc.bufferView { bv with data := some bvData2 } }
  pure (s1.setAcc aid { acc with byteOffset := newOff, data := none })

/-- One iteration of the buffer-view loop of the repack (see
`removeAccessorDataCore`). -/
def repackViewStep (s1 : GltfState) (vi : Nat) : Except Err GltfState := do
  let bv ← arrGet s1.bufferViews vi
  let buf ← arrGet s1.buffers bv.buffer
  let bufData ← req buf.data
  let newOff := align bufData.length 4
  let padding : Int := (bufData.length : Int) - (newOff : Int)
  if padding < 0 then Except.error Err.valueError
  else do
    let bvData ← req bv.data
    let bvData2 := bvData ++ List.replicate padding.toNat 0
    let s1 := { s1 with
      buffers := s1.buffers.set bv.buffer { buf with data := some (bufData ++ bvData2) } }
    pure { s1 with
      bufferViews := s1.bufferViews.set vi { bv with byteOffset := newOff, data := none } }

/-- Source `Gltf._remove_accessor_data` (the repack): empty every buffer
view's byte string; walk the accessors in ascending `(bufferView,
byteOffset)` order through `repackAccStep`; set every view's `byteLength`
to its final byte string length; empty every buffer; walk the views in
ascending `(buffer, byteOffset)` order through `repackViewStep`, appending
each view's bytes to its buffer at `align(len, 4)`.  The view-level padding
count is computed as `len(buffer.data) - byteOffset`, which is never
positive: it is zero when the buffer's current length is already 4-aligned
and negative otherwise, and `bytearray(negative)` raises `ValueError`. -/
def removeAccessorDataCore (s : GltfState) : Except Err GltfState := do
  let s := { s with bufferViews := s.bufferViews.map (fun bv => { bv with data := some [] }) }
  let accOrder ← sortedAccIds s
  let s ← accOrder.foldlM repackAccStep s
  let newViews ← s.bufferViews.mapM (fun bv => do
    let d ← req bv.data
    pure { bv with byteLength := d.length })
  let s := { s with bufferViews := newViews }
  let s := { s with buffers := s.buffers.map (fun b => { b with data := some [] }) }
  sortedViewIdxs s |>.foldlM repackViewStep s

/-- Source `accessor_data` setter. -/
def setAccessorData (s : GltfState) (data : Bool) : Except Err GltfState :=
  if data = s.adata then Except.ok s
  else
    let s := { s with adata := data }
    if data then addAccessorDataCore s else removeAccessorDataCore s

/-- Source `Gltf.get_accessor_data`: force accessor data on, then unpack the
given accessor object's bytes with its struct.  The struct is compiled before
the data is read, as in the source. -/
def getAccessorData (s : GltfState) (aid : Nat) : Except Err (GltfState × List (List Int)) := do
  let s ← setAccessorData s true
  let acc ← s.getAcc aid
  let st ← accessorStruct acc
  let d ← req acc.data
  let vals ← iterUnpack st d
  pure (s, vals)

/-- Source `Gltf.get_accessor_data_index`: resolve the accessor array index,
then `get_accessor_data`. -/
def getAccessorDataIndex (s : GltfState) (accessorIndex : Nat) :
    Except Err (GltfState × List (List Int)) := do
  let aid ← arrGet s.accessors accessorIndex
  getAccessorData s aid

/-! ## Union-find and connected components -/

/-- Modelled from the spec: the external `union_find` module's `UnionFind`
class is not part of the two source files; per the specification it is an
incremental disjoint-set union with lazy element addition (`add`), `union`,
and `groups` returning the partition of the added elements.  The model keeps
one canonical label per element; only the partition it induces is relied on
by the source. -/
structure UnionFind where
  labels : List Nat
deriving DecidableEq, Repr

/-- Modelled from the spec: add one element, initially in its own group. -/
def UnionFind.add (u : UnionFind) : UnionFind :=
  { labels := u.labels ++ [u.labels.length] }

/-- Canonical label of an element. -/
def UnionFind.label (u : UnionFind) (i : Nat) : Nat :=
  (u.labels[i]?).getD i

/-- Modelled from the spec: merge the group of `b` into the group of `a`. -/
def UnionFind.union (u : UnionFind) (a b : Nat) : UnionFind :=
  let la := u.label a
  let lb := u.label b
  { labels := u.labels.map (fun l => if l = lb then la else l) }

/-- First occurrences of each value, in order of appearance. -/
def firstOccur : List Nat → List Nat
  | [] => []
  | x :: xs => x :: (firstOccur xs).filter (fun y => y ≠ x)

/-- Modelled from the spec: the groups of a union-find structure, i.e. the
partition of its elements into label classes; each group lists its element
indices in ascending order, groups ordered by first appearance. -/
def UnionFind.groups (u : UnionFind) : List (List Nat) :=
  (firstOccur u.labels).map (fun l =>
    (List.range u.labels.length).filter (fun i => u.label i = l))

/-- Source `Component` named tuple. -/
structure Component (P : Type) where
  points : List P
  tri_indices : List Nat
deriving DecidableEq, Repr

/-- The inner loop body of `find_with_union`: one point of triangle `i` —
union with the point's recorded first owner, or record triangle `i` as the
first owner of a new point. -/
def fwuPointStep {P : Type} [DecidableEq P] (i : Nat)
    (st2 : List (P × Nat) × UnionFind) (point : P) : List (P × Nat) × UnionFind :=
  match alistFind st2.1 point with
  | some owner => (st2.1, st2.2.union owner i)
  | none => (st2.1 ++ [(point, i)], st2.2)

/-- The outer loop body of `find_with_union`: add a union-find element for
triangle `it.1`, fetch its points, and fold them through `fwuPointStep`. -/
def fwuTriStep {P : Type} [DecidableEq P]
    (get_points : List Int → Except Err (List P))
    (st : List (P × Nat) × UnionFind) (it : Nat × List Int) :
    Except Err (List (P × Nat) × UnionFind) := do
  let triSet := st.2.add
  let pts ← get_points it.2
  pure (pts.foldl (fwuPointStep it.1) (st.1, triSet))

/-- Source `find_with_union`: walk the triangles in order; for each, add a
union-find element, then for each of its points either union with the point's
recorded first owner or record the triangle as first owner; finally return
one `Component` (with an empty point set) per union-find group. -/
def find_with_union {P : Type} [DecidableEq P] (indices : List (List Int))
    (get_points : List Int → Except Err (List P)) :
    Except Err (List (Component P)) := do
  let st ← indices.enum.foldlM (fwuTriStep get_points)
    (([] : List (P × Nat)), ({ labels := [] } : UnionFind))
  pure (st.2.groups.map (fun g => { points := [], tri_indices := g }))

/-- The part of `Gltf._find_connected_components` before the primitive-mode
check: force node references on and accessor references off, resolve the
primitive, read the `POSITION` accessor into position tuples and the
`indices` accessor into a flat list of vertex indices: each decoded element's
first scalar, raising `IndexError` on an empty tuple (which cannot occur
since every multiplier in the type table is positive). -/
def findCCData (s : GltfState) (meshIndex primIndex : Nat) :
    Except Err (GltfState × Nat × List (List Int) × List Int) := do
  let s ← setNodeMeshReference s true
  let s ← setAccessorReference s false
  let mid ← arrGet s.meshes meshIndex
  let mesh ← s.getMesh mid
  let prims ← req mesh.primitives
  let pid ← arrGet prims primIndex
  let prim ← s.getPrim pid
  let posLink ← req (alistFind prim.attributes "POSITION")
  let posIdx ← match posLink with
    | Link.idx i => pure i
    | Link.ref _ => Except.error Err.typeError
  let idxLink ← req prim.indices
  let idxIdx ← match idxLink with
    | Link.idx i => pure i
    | Link.ref _ => Except.error Err.typeError
  let (s, positions) ← getAccessorDataIndex s posIdx
  let (s, rawIndices) ← getAccessorDataIndex s idxIdx
  let inds ← rawIndices.mapM (fun t =>
    match t.head? with
    | some x => pure x
    | none => Except.error Err.indexError)
  pure (s, pid, positions, inds)

/-- Source `Gltf._find_connected_components`: after the data is read, group
the flat index list into triangles when the primitive mode is 4 (otherwise
`NotImplementedError`), and run `find_with_union` with point lookup into the
position list. -/
def findConnectedComponents (s : GltfState) (meshIndex : Nat) (primIndex : Nat) :
    Except Err (GltfState × List (Component (List Int))) := do
  let (s, pid, positions, inds) ← findCCData s meshIndex primIndex
  let prim ← s.getPrim pid
  let mode ← req prim.mode
  if mode = 4 then do
    let tris := pyGroupby inds 3
    let comps ← find_with_union tris (fun tri => tri.mapM (fun i => pyIndex positions i))
    pure (s, comps)
  else Except.error Err.notImplemented

/-! ## Multiprimitive expander and the splitter -/

/-- Source `Gltf.expand_multiprimitive_mesh`: force node references on; a
mesh with at most one primitive is returned untouched.  Otherwise each
primitive after the first moves into a freshly allocated mesh appended to the
mesh array, and the node-rewiring loop runs over the original node range.
The loop variable `mesh` of the inner `for i, mesh in enumerate(...)` loop
rebinds the outer `mesh` variable, so after the first rewired node the
identity test compares against the last appended mesh instead of the original
one; the embedding threads that variable explicitly. -/
def expandMultiprimitiveMesh (s : GltfState) (meshIndex : Nat) :
    Except Err (GltfState × List Nat) := do
  let s ← setNodeMeshReference s true
  let mid ← arrGet s.meshes meshIndex
  let mesh0 ← s.getMesh mid
  if (mesh0.primitives.getD []).length ≤ 1 then pure (s, [])
  else do
    let prims ← req mesh0.primitives
    let name0 ← req mesh0.name
    let rest := prims.drop 1
    let stAdded := rest.enum.foldl
      (fun (acc : GltfState × List Nat) (it : Nat × Nat) =>
        let newMesh : MeshObj :=
          { name := some (name0 ++ " (" ++ toString it.1 ++ ")"),
            primitives := some [it.2] }
        let (s1, newId) := acc.1.allocMesh newMesh
        (s1, acc.2 ++ [newId])) (s, [])
    let s := stAdded.1
    let added := stAdded.2
    let s := { s with meshes := s.meshes ++ added }
    let s := s.setMesh mid { mesh0 with primitives := some (prims.take 1) }
    let n0 := s.nodes.length
    let stFinal ← (List.range n0).foldlM
      (fun (st : GltfState × Nat) nodeIndex => do
        let (s1, meshVar) := st
        let nid ← arrGet s1.nodes nodeIndex
        let node ← s1.getNode nid
        if node.mesh ≠ some (Link.ref meshVar) then pure (s1, meshVar)
        else do
          let meshObj ← s1.getMesh meshVar
          if meshObj.pyLen ≤ 1 then pure (s1, meshVar)
          else do
            let nodeName ← req node.name
            let inner ← (meshVar :: added).enum.foldlM
              (fun (st2 : GltfState × List Link × Nat) (it : Nat × Nat) => do
                let newNode : NodeObj :=
                  { name := some (nodeName ++ " (" ++ toString it.1 ++ ")"),
                    mesh := some (Link.ref it.2), children := none }
                let (s2, newNid) := st2.1.allocNode newNode
                let s2 := { s2 with nodes := s2.nodes ++ [newNid] }
                pure (s2, st2.2.1 ++ [Link.ref newNid], it.2))
              (s1, ([] : List Link), meshVar)
            let (s2, children, meshVar2) := inner
            let node := { node with mesh := none, children := some children }
            pure (s2.setNode nid node, meshVar2)) (s, mid)
    pure (stFinal.1, added)

/-- Source `Gltf.split_disconnected_mesh`, with a fuel bound for the
recursion through freshly expanded meshes: expand a multiprimitive mesh and
recurse into each added mesh, compute the connected components of the (now
sole) first primitive, force reference mode and materialized accessor data,
then rebuild one primitive per component with freshly allocated indices and
attribute accessors (compact local vertex numbering in first-seen order,
recomputed extrema where declared), drop the original primitive, and re-run
the multiprimitive expansion on the result. -/
def splitDisconnectedMesh : Nat → GltfState → Nat → Except Err GltfState
  | 0, _, _ => Except.error Err.outOfFuel
  | Nat.succ fuel, s0, meshIndex => do
    let mid ← arrGet s0.meshes meshIndex
    let mesh ← s0.getMesh mid
    let prims0 ← req mesh.primitives
    let s ← if prims0.length > 1 then do
        let expanded ← expandMultiprimitiveMesh s0 meshIndex
        expanded.2.foldlM (fun s1 addedId => do
          let idx ← pyFind addedId s1.meshes
          splitDisconnectedMesh fuel s1 idx) expanded.1
      else pure s0
    let (s, components) ← findConnectedComponents s meshIndex 0
    let s ← setNodeMeshReference s true
    let s ← setAccessorData s true
    let s ← setAccessorReference s true
    let meshA ← s.getMesh mid
    let primsA ← req meshA.primitives
    let pid ← arrGet primsA 0
    let prim ← s.getPrim pid
    let indLink ← req prim.indices
    let indAccId ← match indLink with
      | Link.ref r => pure r
      | Link.idx _ => Except.error Err.typeError
    let indAcc ← s.getAcc indAccId
    let indicesStruct ← accessorStruct indAcc
    let stAttr ← prim.attributes.foldlM
      (fun (st : GltfState × List (String × Nat × List (List Int) × PyStruct))
           (a : String × Link) => do
        let aid ← match a.2 with
          | Link.ref r => pure r
          | Link.idx _ => Except.error Err.typeError
        let (s1, vals) ← getAccessorData st.1 aid
        let accObj ← s1.getAcc aid
        let stc ← accessorStruct accObj
        pure (s1, st.2 ++ [(a.1, aid, vals, stc)])) (s, [])
    let s := stAttr.1
    let attrInfo := stAttr.2
    let (s, indicesVals) ← getAccessorData s indAccId
    let mode ← req prim.mode
    let _ ← if mode = 4 then pure () else Except.error Err.notImplemented
    let flat ← indicesVals.mapM (fun t =>
      match t with
      | [x] => pure x
      | _ => Except.error Err.valueError)
    let indicesData := pyGroupby flat 3
    let s ← components.foldlM (fun s1 (comp : Component (List Int)) => do
      let walked ← comp.tri_indices.foldlM
        (fun (st : List (Int × Nat) × List Nat × List (List (List Int)))
             (triIndex : Nat) => do
          let tri ← arrGet indicesData triIndex
          tri.foldlM
            (fun (st2 : List (Int × Nat) × List Nat × List (List (List Int)))
                 (index : Int) => do
              let (cmap, clist, cattr) := st2
              match alistFind cmap index with
              | some li => pure (cmap, clist ++ [li], cattr)
              | none => do
                let li := cmap.length
                let cmap := cmap ++ [(index, li)]
                let cattr ← (attrInfo.zip cattr).mapM
                  (fun (it : (String × Nat × List (List Int) × PyStruct) ×
                             List (List Int)) => do
                    let v ← pyIndex it.1.2.2.1 index
                    pure (it.2 ++ [v]))
                pure (cmap, clist ++ [li], cattr)) st)
        (([] : List (Int × Nat)), ([] : List Nat),
         attrInfo.map (fun _ => ([] : List (List Int))))
      let clist := walked.2.1
      let cattr := walked.2.2
      let indAccCur ← s1.getAcc indAccId
      let packedI ← packAll indicesStruct (clist.map (fun i => [(i : Int)]))
      let newIndAcc := { indAccCur with count := clist.length, data := some packedI }
      let (s1, newIndId) := s1.allocAcc newIndAcc
      let s1 := { s1 with accessors := s1.accessors ++ [newIndId] }
      let stNew ← (attrInfo.zip cattr).foldlM
        (fun (st3 : GltfState × List (String × Link))
             (it : (String × Nat × List (List Int) × PyStruct) × List (List Int)) => do
          let name := it.1.1
          let aid := it.1.2.1
          let stc := it.1.2.2.2
          let adata := it.2
          let aCur ← st3.1.getAcc aid
          let aCur ← if aCur.maxv.isSome then do
              let m ← component_max adata
              pure { aCur with maxv := some m }
            else pure aCur
          let aCur ← if aCur.minv.isSome then do
              let m ← component_min adata
              pure { aCur with minv := some m }
            else pure aCur
          let packed ← packAll stc adata
          let aNew := { aCur with count := adata.length, data := some packed }
          let (s2, newId) := st3.1.allocAcc aNew
          let s2 := { s2 with accessors := s2.accessors ++ [newId] }
          pure (s2, st3.2 ++ [(name, Link.ref newId)])) (s1, [])
      let s1 := stNew.1
      let newAttrLinks := stNew.2
      let newPrim : PrimObj :=
        { mode := prim.mode, attributes := newAttrLinks,
          indices := some (Link.ref newIndId) }
      let (s1, newPid) := s1.allocPrim newPrim
      let meshCur ← s1.getMesh mid
      let curPrims ← req meshCur.primitives
      pure (s1.setMesh mid { meshCur with primitives := some (curPrims ++ [newPid]) })) s
    let meshB ← s.getMesh mid
    let primsB ← req meshB.primitives
    let _ ← if primsB.isEmpty then Except.error Err.indexError else pure ()
    let s := s.setMesh mid { meshB with primitives := some (primsB.drop 1) }
    let expandedB ← expandMultiprimitiveMesh s meshIndex
    pure expandedB.1

/-! ## Declarative descriptions of the repacked layout -/

/-- Total byte length of an align-and-append walk: each span is appended at
the 4-byte-aligned end of the running total, starting from `start`.  With
`start = 0` this is the claim's "sum of padded spans". -/
def paddedTotal (start : Nat) (ls : List Nat) : Nat :=
  ls.foldl (fun acc l => align acc 4 + l) start

/-- The byte offsets assigned by an align-and-append walk over spans `ls`
starting at byte position `start`. -/
def offsetsFrom (start : Nat) : List Nat → List Nat
  | [] => []
  | l :: ls => align start 4 :: offsetsFrom (align start 4 + l) ls

/-- The buffer-view slot an accessor heap entry addresses. -/
def accViewOf (s : GltfState) (aid : Nat) : Option Nat :=
  (s.accHeap[aid]?).map AccObj.bufferView

/-- Byte length of an accessor heap entry's materialized data. -/
def accDataLen (s : GltfState) (aid : Nat) : Nat :=
  (((s.accHeap[aid]?).bind AccObj.data).getD []).length

/-- Byte offsets of the given accessor heap entries. -/
def accOffsets (s : GltfState) (ids : List Nat) : List Nat :=
  ids.map (fun aid => ((s.accHeap[aid]?).map AccObj.byteOffset).getD 0)

/-- The buffer slot a buffer-view array slot addresses. -/
def viewBufOf (s : GltfState) (vi : Nat) : Option Nat :=
  (s.bufferViews[vi]?).map BufferView.buffer

/-- Byte length of a buffer-view slot's materialized data. -/
def viewDataLen (s : GltfState) (vi : Nat) : Nat :=
  (((s.bufferViews[vi]?).bind BufferView.data).getD []).length

/-- The result of appending each byte string of the list in turn at the
4-byte-aligned end of `d`, zero-padding before each chunk, exactly as the
accessor loop of the repack grows a buffer view's byte string. -/
def extendView (d : List Nat) : List (List Nat) → List Nat
  | [] => d
  | c :: cs => extendView (d ++ List.replicate (align d.length 4 - d.length) 0 ++ c) cs

/-- The data chunks of the accessors among `A` (in order) that live on
buffer view `v`, read from `s`. -/
def accsOfView (s : GltfState) (A : List Nat) (v : Nat) : List (List Nat) :=
  A.filterMap (fun aid => match s.accHeap[aid]? with
    | some a => if a.bufferView = v then a.data else none
    | none => none)

/-- The byte lengths (spans) of the accessors among `A` on view `v`. -/
def accSpans (s : GltfState) (A : List Nat) (v : Nat) : List Nat :=
  (accsOfView s A v).map List.length

/-- The ids among `A` (in order) of the accessors on buffer view `v`. -/
def accIdsOfView (s : GltfState) (A : List Nat) (v : Nat) : List Nat :=
  A.filter (fun aid => match s.accHeap[aid]? with
    | some a => a.bufferView == v
    | none => false)

/-- The data chunks of the buffer views among `V` (in order) that live on
buffer `b`, read from `s`. -/
def viewsOfBuf (s : GltfState) (V : List Nat) (b : Nat) : List (List Nat) :=
  V.filterMap (fun vi => match s.bufferViews[vi]? with
    | some bv => if bv.buffer = b then bv.data else none
    | none => none)

/-- The spans of buffer `b`'s views in repack order: for each view of `b`,
in ascending original `(buffer, byteOffset)` order, its `byteLength` as
recorded in the repacked state `s2`. -/
def bufViewSpans (s s2 : GltfState) (b : Nat) : List Nat :=
  (sortedViewIdxs s).filterMap (fun vi =>
    match s.bufferViews[vi]?, s2.bufferViews[vi]? with
    | some bv, some bv2 => if bv.buffer = b then some bv2.byteLength else none
    | _, _ => none)

/-! ## Concrete documents used by the theorems -/

/-- A freshly loaded document holding one mesh with one triangle-list
primitive of two disjoint triangles: six vertices with pairwise distinct
positions, triangle one on vertices 0–2 and triangle two on vertices 3–5.
Positions are unsigned-byte VEC3, indices unsigned-byte scalars, both in one
24-byte buffer behind one buffer view. -/
def D3 : GltfState :=
  { nodes := [], meshes := [0], accessors := [0, 1],
    bufferViews := [{ buffer := 0, byteOffset := 0, byteLength := 24, data := none }],
    buffers := [{ uri := some "b.bin", byteLength := 24, data := none }],
    nodeHeap := [],
    meshHeap := [{ name := some "m", primitives := some [0] }],
    primHeap := [{ mode := some 4, attributes := [("POSITION", Link.idx 0)],
                   indices := some (Link.idx 1) }],
    accHeap := [
      { bufferView := 0, byteOffset := 0, count := 6, componentType := 5121,
        type := "VEC3", minv := none, maxv := none, data := none },
      { bufferView := 0, byteOffset := 18, count := 6, componentType := 5121,
        type := "SCALAR", minv := none, maxv := none, data := none }],
    files := [("b.bin",
      [0,0,0, 1,0,0, 2,0,0, 10,0,0, 11,0,0, 12,0,0, 0,1,2,3,4,5])],
    nmr := false, adata := false, aref := false }

/-- A document with one three-primitive mesh referenced by two nodes. -/
def D4 : GltfState :=
  { nodes := [0, 1], meshes := [0], accessors := [],
    bufferViews := [], buffers := [],
    nodeHeap := [
      { name := some "a", mesh := some (Link.idx 0), children := none },
      { name := some "b", mesh := some (Link.idx 0), children := none }],
    meshHeap := [{ name := some "m", primitives := some [0, 1, 2] }],
    primHeap := [
      { mode := some 4, attributes := [], indices := none },
      { mode := some 4, attributes := [], indices := none },
      { mode := some 4, attributes := [], indices := none }],
    accHeap := [], files := [],
    nmr := false, adata := false, aref := false }

/-- A document whose only buffer has no URI but already carries bytes
in memory (the intermediate in-memory state the specification describes). -/
def D7 : GltfState :=
  { nodes := [], meshes := [], accessors := [],
    bufferViews := [],
    buffers := [{ uri := none, byteLength := 3, data := some [1, 2, 3] }],
    nodeHeap := [], meshHeap := [], primHeap := [], accHeap := [],
    files := [], nmr := false, adata := false, aref := false }

/-- A freshly loaded document whose single primitive has an indices accessor
of count 7 — not a multiple of 3: triangles (0,1,2) and (0,3,4) plus one
trailing index 5.  The two triangles share vertex index 0, hence its
position, so they belong to one component. -/
def D10 : GltfState :=
  { nodes := [], meshes := [0], accessors := [0, 1],
    bufferViews := [{ buffer := 0, byteOffset := 0, byteLength := 25, data := none }],
    buffers := [{ uri := some "c.bin", byteLength := 25, data := none }],
    nodeHeap := [],
    meshHeap := [{ name := some "m", primitives := some [0] }],
    primHeap := [{ mode := some 4, attributes := [("POSITION", Link.idx 0)],
                   indices := some (Link.idx 1) }],
    accHeap := [
      { bufferView := 0, byteOffset := 0, count := 6, componentType := 5121,
        type := "VEC3", minv := none, maxv := none, data := none },
      { bufferView := 0, byteOffset := 18, count := 7, componentType := 5121,
        type := "SCALAR", minv := none, maxv := none, data := none }],
    files := [("c.bin",
      [0,0,0, 1,0,0, 2,0,0, 3,0,0, 4,0,0, 5,0,0, 0,1,2, 0,3,4, 5])],
    nmr := false, adata := false, aref := false }

/-- A materialized document (accessor data loaded) with two accessors in one
buffer view of one buffer, with a 6-byte and a 4-byte accessor payload, used
to witness the repack invariants. -/
def D5 : GltfState :=
  { nodes := [], meshes := [], accessors := [0, 1],
    bufferViews := [
      { buffer := 0, byteOffset := 0, byteLength := 12,
        data := some [1, 2, 3, 4, 5, 6, 0, 0, 7, 8, 9, 10] }],
    buffers := [{ uri := some "d.bin", byteLength := 12,
                  data := some [1, 2, 3, 4, 5, 6, 0, 0, 7, 8, 9, 10] }],
    nodeHeap := [], meshHeap := [], primHeap := [],
    accHeap := [
      { bufferView := 0, byteOffset := 0, count := 3, componentType := 5123,
        type := "SCALAR", minv := none, maxv := none,
        data := some [1, 2, 3, 4, 5, 6] },
      { bufferView := 0, byteOffset := 8, count := 1, componentType := 5125,
        type := "SCALAR", minv := none, maxv := none,
        data := some [7, 8, 9, 10] }],
    files := [], nmr := false, adata := true, aref := false }

/-- The two-disjoint-triangle document `D3` with the primitive's mode set
to 1 (line list) instead of 4 (triangle list). -/
def D8 : GltfState :=
  { D3 with primHeap := [{ mode := some 1,
                           attributes := [("POSITION", Link.idx 0)],
                           indices := some (Link.idx 1) }] }

/-! ## C9: setters are no-ops at the current flag value -/

/-- C9: for every document state, setting any of the three mode flags
(`node_mesh_reference`, `accessor_data`, `accessor_reference`) to its current
value returns the state completely unchanged. -/
theorem C9_setters_noop_at_current_value (s : GltfState) :
    setNodeMeshReference s s.nmr = Except.ok s ∧
    setAccessorData s s.adata = Except.ok s ∧
    setAccessorReference s s.aref = Except.ok s := by
  refine ⟨?_, ?_, ?_⟩ <;>
    simp [setNodeMeshReference, setAccessorData, setAccessorReference]

/-! ## C3: splitting a mesh of two disjoint triangles -/

/-- C3 counterexample: on the two-disjoint-triangle document, after
`split_disconnected_mesh` no mesh has 2 primitives — the trailing
multiprimitive re-expansion leaves the split mesh with exactly 1 primitive
and moves the other into a newly appended mesh, so the claim's "produces a
mesh with 2 primitives" is false on this input. -/
theorem C3_counterexample_no_mesh_with_two_primitives :
    (splitDisconnectedMesh 5 D3 0).map
      (fun s => s.meshHeap.map (fun m => (m.primitives.getD []).length))
      = Except.ok [1, 1] := rfl

/-- C3 amended: splitting the two-disjoint-triangle mesh produces 2
single-primitive meshes (the original keeps the first component's primitive,
the automatic re-expansion moves the second component's primitive to a newly
appended mesh); each of the two new primitives has an indices accessor of
count 3 with packed data exactly `[0, 1, 2]` and a `POSITION` accessor with
exactly 3 vertices. -/
theorem C3_amended_split_into_two_meshes :
    (splitDisconnectedMesh 5 D3 0).map (fun s =>
      (s.meshes.length,
       s.meshHeap.map (fun m => (m.primitives.getD []).length),
       (s.primHeap.drop 1).map (fun p =>
         (p.indices.map (fun l =>
            match l with
            | Link.ref r => (s.accHeap[r]?).map (fun (a : AccObj) => (a.count, a.data.getD []))
            | Link.idx i => some (i, [])),
          (alistFind p.attributes "POSITION").map (fun l =>
            match l with
            | Link.ref r => (s.accHeap[r]?).map (fun (a : AccObj) => a.count)
            | Link.idx i => some i)))))
      = Except.ok (2, [1, 1],
          [(some (some (3, [0, 1, 2])), some (some 3)),
           (some (some (3, [0, 1, 2])), some (some 3))]) := rfl

/-! ## C4: expanding a three-primitive mesh referenced by two nodes -/

/-- C4: on a three-primitive mesh referenced by two nodes,
`expand_multiprimitive_mesh` does create the 2 new meshes and rewires the
first referencing node (mesh reference removed, exactly 3 fresh children in
primitive order), but the loop variable shadowing of `mesh` makes the
identity test compare later nodes against the last appended mesh, so the
second referencing node keeps its mesh reference and gains no children —
contradicting the claim's "every node". -/
theorem C4_second_referencing_node_not_rewired :
    (expandMultiprimitiveMesh D4 0).map (fun p =>
      (p.2.length,
       p.1.meshes.length,
       p.1.nodeHeap.map (fun n => (n.mesh, (n.children.getD []).length))))
      = Except.ok (2, 3,
          [(none, 3),
           (some (Link.ref 0), 0),
           (some (Link.ref 0), 0),
           (some (Link.ref 1), 0),
           (some (Link.ref 2), 0)]) := rfl

/-! ## A small rewriting kit for the `Except` monad -/

/-- Bind on a successful `Except` computation. -/
theorem exceptOkBind {ε α β : Type} (a : α) (f : α → Except ε β) :
    (Except.ok a >>= f) = f a := rfl

/-- Bind on a failed `Except` computation. -/
theorem exceptErrorBind {ε α β : Type} (e : ε) (f : α → Except ε β) :
    ((Except.error e : Except ε α) >>= f) = Except.error e := rfl

/-- Map over a successful `Except` computation. -/
theorem exceptMapOk {ε α β : Type} (f : α → β) (a : α) :
    (f <$> (Except.ok a : Except ε α)) = Except.ok (f a) := rfl

/-- Map over a failed `Except` computation. -/
theorem exceptMapError {ε α β : Type} (f : α → β) (e : ε) :
    (f <$> (Except.error e : Except ε α)) = Except.error e := rfl

/-- Pure in the `Except` monad. -/
theorem exceptPureEq {ε α : Type} (a : α) :
    (pure a : Except ε α) = Except.ok a := rfl

/-! ## C7: forward materialization and URI-less buffers -/

/-- Helper for C7: the buffer-loading loop of `_add_accessor_data` can never
succeed while some index it visits holds a buffer without a URI. -/
theorem loadBuffers_no_ok (L : List Nat) (s : GltfState)
    (h : ∃ i ∈ L, ∃ b, s.buffers[i]? = some b ∧ b.uri = none) (r : GltfState) :
    L.foldlM loadBufferStep s ≠ Except.ok r := by
  induction L generalizing s with
  | nil => simp at h
  | cons j rest ih =>
    obtain ⟨i, hi, b, hb, hu⟩ := h
    simp only [List.foldlM_cons]
    rcases List.mem_cons.mp hi with hij | hir
    · subst hij
      have hstep : loadBufferStep s i = Except.error Err.keyError := by
        simp [loadBufferStep, arrGet, hb, hu, req, exceptOkBind, exceptErrorBind]
      rw [hstep, exceptErrorBind]
      simp
    · cases e : loadBufferStep s j with
      | error err => rw [exceptErrorBind]; simp
      | ok s1 =>
        rw [exceptOkBind]
        apply ih s1
        refine ⟨i, hir, b, ?_, hu⟩
        by_cases hji : j = i
        · subst hji
          have hstep : loadBufferStep s j = Except.error Err.keyError := by
            simp [loadBufferStep, arrGet, hb, hu, req, exceptOkBind, exceptErrorBind]
          rw [hstep] at e
          exact absurd e (by simp)
        · revert e
          unfold loadBufferStep
          cases hbj : s.buffers[j]? with
          | none => simp [arrGet, hbj, exceptErrorBind, exceptOkBind]
          | some bj =>
            cases hbu : bj.uri with
            | none => simp [arrGet, hbj, req, hbu, exceptErrorBind, exceptOkBind]
            | some u =>
              cases hf : fileRead s.files u with
              | error err =>
                simp [arrGet, hbj, req, hbu, hf, exceptErrorBind, exceptOkBind,
                  exceptMapError]
              | ok bytes =>
                intro e
                simp only [arrGet, hbj, req, hbu, hf, exceptErrorBind, exceptOkBind,
                  exceptMapOk, exceptPureEq, Except.ok.injEq] at e
                rw [← e]
                simpa [List.getElem?_set_ne hji] using hb

/-- C7 counterexample: on a document whose only buffer carries in-memory data
and no URI, forward materialization raises `KeyError` instead of leaving the
buffer unchanged — `_add_accessor_data` subscripts `buffer["uri"]` for every
buffer unconditionally. -/
theorem C7_counterexample_uriless_buffer_raises :
    setAccessorData D7 true = Except.error Err.keyError := rfl

/-- C7 amended: during forward materialization every buffer's bytes are read
from its URI side file; a buffer with no URI makes the materialization fail
(with `KeyError`) rather than being left unchanged. -/
theorem C7_amended_uriless_buffer_fails (s : GltfState)
    (h : ∃ b ∈ s.buffers, b.uri = none) (hoff : s.adata = false) (r : GltfState) :
    setAccessorData s true ≠ Except.ok r := by
  obtain ⟨b, hmem, hu⟩ := h
  obtain ⟨i, hlt, hbi⟩ := List.mem_iff_getElem.mp hmem
  have hbi2 : s.buffers[i]? = some b := by
    rw [List.getElem?_eq_getElem hlt, hbi]
  have hcond : ∃ j ∈ List.range s.buffers.length, ∃ b2,
      ({ s with adata := true } : GltfState).buffers[j]? = some b2 ∧ b2.uri = none := by
    exact ⟨i, List.mem_range.mpr hlt, b, hbi2, hu⟩
  intro hcontra
  simp only [setAccessorData, hoff, reduceIte] at hcontra
  simp only [addAccessorDataCore] at hcontra
  cases e : (List.range ({ s with adata := true } : GltfState).buffers.length).foldlM
      loadBufferStep { s with adata := true } with
  | error err =>
    rw [e, exceptErrorBind] at hcontra
    exact absurd hcontra (by simp)
  | ok s1 =>
    exact absurd e (loadBuffers_no_ok _ _ hcond s1)

/-- C7 witness: the amended theorem applied to the concrete URI-less-buffer
document. -/
theorem C7_amended_witness : setAccessorData D7 true ≠ Except.ok D7 :=
  C7_amended_uriless_buffer_fails D7
    ⟨{ uri := none, byteLength := 3, data := some [1, 2, 3] }, by decide, rfl⟩ rfl D7

/-! ## C10: grouping into triangles discards a partial final group -/

/-- The fuel of `pyGroupbyF` is irrelevant once it covers the list length. -/
theorem pyGroupbyF_congr {α : Type} (f1 : Nat) :
    ∀ (f2 : Nat) (l : List α) (n : Nat), l.length ≤ f1 → l.length ≤ f2 →
      pyGroupbyF f1 l n = pyGroupbyF f2 l n := by
  induction f1 with
  | zero =>
    intro f2 l n h1 _
    have hl : l = [] := List.eq_nil_of_length_eq_zero (Nat.le_zero.mp h1)
    subst hl
    cases f2 with
    | zero => rfl
    | succ f2 =>
      have hc : n = 0 ∨ ([] : List α).length < n := by
        rcases Nat.eq_zero_or_pos n with hn | hn
        · exact Or.inl hn
        · exact Or.inr (by simpa using hn)
      simp only [pyGroupbyF, if_pos hc]
  | succ f1 ih =>
    intro f2 l n h1 h2
    cases f2 with
    | zero =>
      have hl : l = [] := List.eq_nil_of_length_eq_zero (Nat.le_zero.mp h2)
      subst hl
      have hc : n = 0 ∨ ([] : List α).length < n := by
        rcases Nat.eq_zero_or_pos n with hn | hn
        · exact Or.inl hn
        · exact Or.inr (by simpa using hn)
      simp only [pyGroupbyF, if_pos hc]
    | succ f2 =>
      simp only [pyGroupbyF]
      by_cases hc : n = 0 ∨ l.length < n
      · rw [if_pos hc, if_pos hc]
      · rw [if_neg hc, if_neg hc]
        have hn0 : n ≠ 0 := fun h => hc (Or.inl h)
        have hnl : n ≤ l.length := Nat.le_of_not_lt fun h => hc (Or.inr h)
        congr 1
        apply ih
        · simp only [List.length_drop]
          omega
        · simp only [List.length_drop]
          omega

/-- Unfolding equation of `pyGroupby` in terms of itself. -/
theorem pyGroupby_eq {α : Type} (l : List α) (n : Nat) :
    pyGroupby l n =
      if n = 0 ∨ l.length < n then [] else l.take n :: pyGroupby (l.drop n) n := by
  by_cases hc : n = 0 ∨ l.length < n
  · rw [if_pos hc]
    unfold pyGroupby
    cases hl : l.length with
    | zero => rfl
    | succ k =>
      have hc2 : n = 0 ∨ l.length < n := hc
      rw [hl] at hc2
      simp only [pyGroupbyF]
      rw [if_pos (by rw [hl]; exact hc2)]
  · rw [if_neg hc]
    unfold pyGroupby
    have hn0 : n ≠ 0 := fun h => hc (Or.inl h)
    have hnl : n ≤ l.length := Nat.le_of_not_lt fun h => hc (Or.inr h)
    have hpos : 0 < l.length := Nat.lt_of_lt_of_le (Nat.pos_of_ne_zero hn0) hnl
    obtain ⟨k, hk⟩ : ∃ k, l.length = k + 1 := ⟨l.length - 1, by omega⟩
    rw [hk]
    simp only [pyGroupbyF]
    rw [if_neg hc]
    congr 1
    apply pyGroupbyF_congr
    · simp only [List.length_drop]
      omega
    · simp only [List.length_drop]
      omega

/-- Helper for C10, by induction on a bound of the list length: grouping by
3 yields exactly one group per 3 full elements, every group of size 3, and
the groups concatenate back to the list truncated at the last multiple of
3. -/
theorem pyGroupby3_props {α : Type} :
    ∀ (N : Nat) (l : List α), l.length ≤ N →
      (pyGroupby l 3).length = l.length / 3 ∧
      (∀ g ∈ pyGroupby l 3, g.length = 3) ∧
      (pyGroupby l 3).flatten = l.take (3 * (l.length / 3)) := by
  intro N
  induction N with
  | zero =>
    intro l h
    have hl : l = [] := List.eq_nil_of_length_eq_zero (Nat.le_zero.mp h)
    subst hl
    refine ⟨by simp [pyGroupby, pyGroupbyF], ?_, by simp [pyGroupby, pyGroupbyF]⟩
    intro g hg
    simp [pyGroupby, pyGroupbyF] at hg
  | succ N ih =>
    intro l h
    rw [pyGroupby_eq]
    by_cases hc : (3 : Nat) = 0 ∨ l.length < 3
    · rw [if_pos hc]
      have hlt : l.length < 3 := by
        rcases hc with hc | hc
        · exact absurd hc (by omega)
        · exact hc
      have hdiv : l.length / 3 = 0 := Nat.div_eq_of_lt hlt
      refine ⟨by simp [hdiv], by simp, by simp [hdiv]⟩
    · rw [if_neg hc]
      have hge : 3 ≤ l.length := by
        rcases Nat.lt_or_ge l.length 3 with hlt | hge
        · exact absurd (Or.inr hlt) hc
        · exact hge
      have hdrop : (l.drop 3).length ≤ N := by
        simp only [List.length_drop]
        omega
      obtain ⟨ihlen, ihall, ihflat⟩ := ih (l.drop 3) hdrop
      refine ⟨?_, ?_, ?_⟩
      · simp only [List.length_cons, ihlen, List.length_drop]
        omega
      · intro g hg
        rcases List.mem_cons.mp hg with hg | hg
        · subst hg
          simp only [List.length_take]
          omega
        · exact ihall g hg
      · simp only [List.flatten_cons, ihflat, List.length_drop]
        rw [← List.take_add]
        congr 1
        omega

/-- C10: `groupby` at 3 silently drops the trailing 1 or 2 indices of an
indices sequence whose length is not a multiple of 3 — every produced group
has exactly 3 entries, there are exactly length-div-3 of them, and they
concatenate to the sequence truncated at the last multiple of 3; moreover on
a concrete document whose indices accessor has count 7 (triangles (0,1,2)
and (0,3,4) sharing vertex 0, plus one dangling index), connected-component
discovery succeeds — no error — and groups exactly the two complete
triangles into one component, ignoring the seventh index. -/
theorem C10_partial_triangle_group_discarded (l : List Int) :
    ((pyGroupby l 3).length = l.length / 3 ∧
     (∀ g ∈ pyGroupby l 3, g.length = 3) ∧
     (pyGroupby l 3).flatten = l.take (3 * (l.length / 3))) ∧
    (findConnectedComponents D10 0 0).map
      (fun p => p.2.map (fun c => c.tri_indices)) = Except.ok [[0, 1]] :=
  ⟨pyGroupby3_props l.length l (Nat.le_refl _), rfl⟩

/-! ## C2: the three-triangle connected-components scenario -/

/-- Association lookup distributes over append: the left list wins. -/
theorem alistFind_append {α β : Type} [DecidableEq α] (l1 l2 : List (α × β)) (k : α) :
    alistFind (l1 ++ l2) k =
      match alistFind l1 k with
      | some v => some v
      | none => alistFind l2 k := by
  induction l1 with
  | nil => simp [alistFind]
  | cons hd tl ih =>
    obtain ⟨k1, v1⟩ := hd
    by_cases hk : k1 = k
    · simp [alistFind, hk]
    · simp only [List.cons_append, alistFind, if_neg hk]
      exact ih

/-- Point-fold of `find_with_union` under an absorbing union-find state: when
every union the points can trigger leaves the structure unchanged, the fold
keeps the union-find state, extends the point map's keys by exactly the new
points, and gives every new key the current triangle as owner. -/
theorem fwuPointStep_stable {P : Type} [DecidableEq P] (i : Nat) (uf : UnionFind)
    (hSelf : uf.union i i = uf) :
    ∀ (pts : List P) (pmap : List (P × Nat)),
      (∀ q ∈ pts, ∀ v, alistFind pmap q = some v → uf.union v i = uf) →
      (pts.foldl (fwuPointStep i) (pmap, uf)).2 = uf ∧
      (∀ q, alistFind (pts.foldl (fwuPointStep i) (pmap, uf)).1 q = none ↔
        (alistFind pmap q = none ∧ q ∉ pts)) ∧
      (∀ q v, alistFind (pts.foldl (fwuPointStep i) (pmap, uf)).1 q = some v →
        alistFind pmap q = some v ∨ v = i) := by
  intro pts
  induction pts with
  | nil =>
    intro pmap _
    refine ⟨rfl, ?_, ?_⟩
    · intro q
      simp
    · intro q v hv
      exact Or.inl hv
  | cons p rest ih =>
    intro pmap habs
    rw [List.foldl_cons]
    cases hfind : alistFind pmap p with
    | some owner =>
      have huf := habs p (List.mem_cons_self p rest) owner hfind
      have hstep : fwuPointStep i (pmap, uf) p = (pmap, uf) := by
        simp [fwuPointStep, hfind, huf]
      rw [hstep]
      obtain ⟨c1, c2, c3⟩ := ih pmap
        (fun q hq v hv => habs q (List.mem_cons_of_mem _ hq) v hv)
      refine ⟨c1, ?_, c3⟩
      intro q
      rw [c2 q]
      constructor
      · rintro ⟨hn, hq⟩
        refine ⟨hn, ?_⟩
        intro hmem
        rcases List.mem_cons.mp hmem with h | h
        · subst h
          rw [hfind] at hn
          exact absurd hn (by simp)
        · exact hq h
      · rintro ⟨hn, hq⟩
        exact ⟨hn, fun h => hq (List.mem_cons_of_mem _ h)⟩
    | none =>
      have hstep : fwuPointStep i (pmap, uf) p = (pmap ++ [(p, i)], uf) := by
        simp [fwuPointStep, hfind]
      rw [hstep]
      have habs2 : ∀ q ∈ rest, ∀ v,
          alistFind (pmap ++ [(p, i)]) q = some v → uf.union v i = uf := by
        intro q hq v hv
        rw [alistFind_append] at hv
        cases hf2 : alistFind pmap q with
        | some w =>
          rw [hf2] at hv
          cases hv
          exact habs q (List.mem_cons_of_mem _ hq) _ hf2
        | none =>
          rw [hf2] at hv
          by_cases hpq : p = q
          · simp only [alistFind, if_pos hpq, Option.some.injEq] at hv
            rw [← hv]
            exact hSelf
          · simp [alistFind, hpq] at hv
      obtain ⟨c1, c2, c3⟩ := ih (pmap ++ [(p, i)]) habs2
      refine ⟨c1, ?_, ?_⟩
      · intro q
        rw [c2 q, alistFind_append]
        cases hf2 : alistFind pmap q with
        | some w =>
          simp
        | none =>
          by_cases hpq : p = q
          · subst hpq
            simp [alistFind]
          · simp [alistFind, hpq, List.mem_cons, eq_comm]
      · intro q v hv
        rcases c3 q v hv with h | h
        · rw [alistFind_append] at h
          cases hf2 : alistFind pmap q with
          | some w =>
            rw [hf2] at h
            exact Or.inl h
          | none =>
            rw [hf2] at h
            by_cases hpq : p = q
            · simp only [alistFind, if_pos hpq, Option.some.injEq] at h
              exact Or.inr h.symm
            · simp [alistFind, hpq] at h
        · exact Or.inr h

/-- C2: for triangles `[(0,1,2), (2,3,4), (10,11,12)]` over any position
sequence of at least 13 entries in which the positions at indices 10, 11 and
12 all differ from those at indices 0 through 4, the union-find component
search of `_find_connected_components` (its `find_with_union` core over the
triangle grouping) returns exactly 2 groups: triangles 0 and 1 together
(they share vertex index 2, hence its position) and triangle 2 alone —
sizes 2 and 1. -/
theorem C2_three_triangles_two_components {P : Type} [DecidableEq P]
    (positions : List P) (h13 : 13 ≤ positions.length)
    (hd : ∀ i ∈ ([10, 11, 12] : List Nat), ∀ j, j ≤ 4 → positions[i]? ≠ positions[j]?) :
    find_with_union (pyGroupby ([0, 1, 2, 2, 3, 4, 10, 11, 12] : List Int) 3)
      (fun tri => tri.mapM (fun i => pyIndex positions i))
      = Except.ok [{ points := [], tri_indices := [0, 1] },
                   { points := [], tri_indices := [2] }] := by
  have hget : ∀ k : Nat, k < 13 → positions[k]? ≠ none := by
    intro k hk h
    rw [List.getElem?_eq_none_iff] at h
    omega
  obtain ⟨p0, hp0⟩ := Option.ne_none_iff_exists'.mp (hget 0 (by omega))
  obtain ⟨p1, hp1⟩ := Option.ne_none_iff_exists'.mp (hget 1 (by omega))
  obtain ⟨p2, hp2⟩ := Option.ne_none_iff_exists'.mp (hget 2 (by omega))
  obtain ⟨p3, hp3⟩ := Option.ne_none_iff_exists'.mp (hget 3 (by omega))
  obtain ⟨p4, hp4⟩ := Option.ne_none_iff_exists'.mp (hget 4 (by omega))
  obtain ⟨pa, hpa⟩ := Option.ne_none_iff_exists'.mp (hget 10 (by omega))
  obtain ⟨pb, hpb⟩ := Option.ne_none_iff_exists'.mp (hget 11 (by omega))
  obtain ⟨pc, hpc⟩ := Option.ne_none_iff_exists'.mp (hget 12 (by omega))
  have hsep : ∀ (i : Nat), i ∈ ([10, 11, 12] : List Nat) → ∀ q, positions[i]? = some q →
      q ∉ ([p0, p1, p2] : List P) ∧ q ∉ ([p3, p4] : List P) := by
    intro i hi q hq
    constructor
    · intro hmem
      simp only [List.mem_cons, List.not_mem_nil, or_false] at hmem
      rcases hmem with h | h | h
      · exact hd i hi 0 (by omega) (by rw [hq, hp0, h])
      · exact hd i hi 1 (by omega) (by rw [hq, hp1, h])
      · exact hd i hi 2 (by omega) (by rw [hq, hp2, h])
    · intro hmem
      simp only [List.mem_cons, List.not_mem_nil, or_false] at hmem
      rcases hmem with h | h
      · exact hd i hi 3 (by omega) (by rw [hq, hp3, h])
      · exact hd i hi 4 (by omega) (by rw [hq, hp4, h])
  have e0 : pyIndex positions (0 : Int) = Except.ok p0 := by
    simp [pyIndex, arrGet, hp0]
  have e1 : pyIndex positions (1 : Int) = Except.ok p1 := by
    simp [pyIndex, arrGet, hp1]
  have e2 : pyIndex positions (2 : Int) = Except.ok p2 := by
    simp [pyIndex, arrGet, hp2]
  have e3 : pyIndex positions (3 : Int) = Except.ok p3 := by
    simp [pyIndex, arrGet, hp3]
  have e4 : pyIndex positions (4 : Int) = Except.ok p4 := by
    simp [pyIndex, arrGet, hp4]
  have ea : pyIndex positions (10 : Int) = Except.ok pa := by
    simp [pyIndex, arrGet, hpa]
  have eb : pyIndex positions (11 : Int) = Except.ok pb := by
    simp [pyIndex, arrGet, hpb]
  have ec : pyIndex positions (12 : Int) = Except.ok pc := by
    simp [pyIndex, arrGet, hpc]
  have hg0 : ([0, 1, 2] : List Int).mapM (fun i => pyIndex positions i)
      = Except.ok [p0, p1, p2] := by
    simp [List.mapM, List.mapM.loop, e0, e1, e2, exceptOkBind, exceptPureEq]
  have hg1 : ([2, 3, 4] : List Int).mapM (fun i => pyIndex positions i)
      = Except.ok [p2, p3, p4] := by
    simp [List.mapM, List.mapM.loop, e2, e3, e4, exceptOkBind, exceptPureEq]
  have hg2 : ([10, 11, 12] : List Int).mapM (fun i => pyIndex positions i)
      = Except.ok [pa, pb, pc] := by
    simp [List.mapM, List.mapM.loop, ea, eb, ec, exceptOkBind, exceptPureEq]
  obtain ⟨s1uf, s1keys, s1vals⟩ :=
    fwuPointStep_stable 0 ({ labels := [0] } : UnionFind) rfl [p0, p1, p2] []
      (by intro q hq v hv; simp [alistFind] at hv)
  have hp2find : alistFind ([p0, p1, p2].foldl (fwuPointStep 0)
      (([] : List (P × Nat)), ({ labels := [0] } : UnionFind))).1 p2 = some 0 := by
    cases hf : alistFind ([p0, p1, p2].foldl (fwuPointStep 0)
        (([] : List (P × Nat)), ({ labels := [0] } : UnionFind))).1 p2 with
    | none =>
      rw [s1keys p2] at hf
      exact absurd (by simp : p2 ∈ ([p0, p1, p2] : List P)) hf.2
    | some v =>
      rcases s1vals p2 v hf with h | h
      · simp [alistFind] at h
      · rw [h]
  obtain ⟨s2uf, s2keys, s2vals⟩ :=
    fwuPointStep_stable 1 ({ labels := [0, 0] } : UnionFind) rfl [p3, p4]
      ([p0, p1, p2].foldl (fwuPointStep 0)
        (([] : List (P × Nat)), ({ labels := [0] } : UnionFind))).1
      (by
        intro q hq v hv
        rcases s1vals q v hv with h | h
        · simp [alistFind] at h
        · rw [h]
          rfl)
  obtain ⟨s3uf, s3keys, s3vals⟩ :=
    fwuPointStep_stable 2 ({ labels := [0, 0, 2] } : UnionFind) rfl [pa, pb, pc]
      ([p3, p4].foldl (fwuPointStep 1)
        (([p0, p1, p2].foldl (fwuPointStep 0)
          (([] : List (P × Nat)), ({ labels := [0] } : UnionFind))).1,
         ({ labels := [0, 0] } : UnionFind))).1
      (by
        intro q hq v hv
        exfalso
        have hq2 : ∃ i ∈ ([10, 11, 12] : List Nat), positions[i]? = some q := by
          simp only [List.mem_cons, List.not_mem_nil, or_false] at hq
          rcases hq with h | h | h
          · exact ⟨10, by simp, by rw [hpa, h]⟩
          · exact ⟨11, by simp, by rw [hpb, h]⟩
          · exact ⟨12, by simp, by rw [hpc, h]⟩
        obtain ⟨i, hi, hiq⟩ := hq2
        obtain ⟨hq3, hq4⟩ := hsep i hi q hiq
        have : alistFind ([p3, p4].foldl (fwuPointStep 1)
            (([p0, p1, p2].foldl (fwuPointStep 0)
              (([] : List (P × Nat)), ({ labels := [0] } : UnionFind))).1,
             ({ labels := [0, 0] } : UnionFind))).1 q = none := by
          rw [s2keys q]
          refine ⟨?_, hq4⟩
          rw [s1keys q]
          exact ⟨by simp [alistFind], hq3⟩
        rw [this] at hv
        exact absurd hv (by simp))
  have henum : (pyGroupby ([0, 1, 2, 2, 3, 4, 10, 11, 12] : List Int) 3).enum
      = [(0, [0, 1, 2]), (1, [2, 3, 4]), (2, [10, 11, 12])] := rfl
  have ht0 : fwuTriStep (fun tri => tri.mapM (fun i => pyIndex positions i))
      (([] : List (P × Nat)), ({ labels := [] } : UnionFind)) (0, [0, 1, 2])
      = Except.ok ([p0, p1, p2].foldl (fwuPointStep 0)
          (([] : List (P × Nat)), ({ labels := [0] } : UnionFind))) := by
    simp only [fwuTriStep, hg0, exceptOkBind, exceptPureEq]
    rfl
  have ht1 : fwuTriStep (fun tri => tri.mapM (fun i => pyIndex positions i))
      ([p0, p1, p2].foldl (fwuPointStep 0)
        (([] : List (P × Nat)), ({ labels := [0] } : UnionFind))) (1, [2, 3, 4])
      = Except.ok ([p3, p4].foldl (fwuPointStep 1)
          (([p0, p1, p2].foldl (fwuPointStep 0)
            (([] : List (P × Nat)), ({ labels := [0] } : UnionFind))).1,
           ({ labels := [0, 0] } : UnionFind))) := by
    simp only [fwuTriStep, hg1, exceptOkBind, exceptPureEq, s1uf]
    rw [List.foldl_cons]
    have hstep : fwuPointStep 1
        (([p0, p1, p2].foldl (fwuPointStep 0)
          (([] : List (P × Nat)), ({ labels := [0] } : UnionFind))).1,
         UnionFind.add { labels := [0] }) p2
        = (([p0, p1, p2].foldl (fwuPointStep 0)
            (([] : List (P × Nat)), ({ labels := [0] } : UnionFind))).1,
           ({ labels := [0, 0] } : UnionFind)) := by
      simp only [fwuPointStep, hp2find]
      rfl
    rw [hstep]
  have ht2 : fwuTriStep (fun tri => tri.mapM (fun i => pyIndex positions i))
      ([p3, p4].foldl (fwuPointStep 1)
        (([p0, p1, p2].foldl (fwuPointStep 0)
          (([] : List (P × Nat)), ({ labels := [0] } : UnionFind))).1,
         ({ labels := [0, 0] } : UnionFind))) (2, [10, 11, 12])
      = Except.ok ([pa, pb, pc].foldl (fwuPointStep 2)
          (([p3, p4].foldl (fwuPointStep 1)
            (([p0, p1, p2].foldl (fwuPointStep 0)
              (([] : List (P × Nat)), ({ labels := [0] } : UnionFind))).1,
             ({ labels := [0, 0] } : UnionFind))).1,
           ({ labels := [0, 0, 2] } : UnionFind))) := by
    simp only [fwuTriStep, hg2, exceptOkBind, exceptPureEq, s2uf]
    rfl
  simp only [find_with_union, henum]
  rw [List.foldlM_cons, ht0, exceptOkBind, List.foldlM_cons, ht1, exceptOkBind,
    List.foldlM_cons, ht2, exceptOkBind, List.foldlM_nil]
  rw [exceptPureEq, exceptOkBind]
  rw [show ([pa, pb, pc].foldl (fwuPointStep 2)
      (([p3, p4].foldl (fwuPointStep 1)
        (([p0, p1, p2].foldl (fwuPointStep 0)
          (([] : List (P × Nat)), ({ labels := [0] } : UnionFind))).1,
         ({ labels := [0, 0] } : UnionFind))).1,
       ({ labels := [0, 0, 2] } : UnionFind))).2 = { labels := [0, 0, 2] } from s3uf]
  rfl

/-- C2 witness: the scenario theorem applied to thirteen concrete pairwise
distinct positions. -/
theorem C2_witness_concrete_positions :
    find_with_union (pyGroupby ([0, 1, 2, 2, 3, 4, 10, 11, 12] : List Int) 3)
      (fun tri => tri.mapM (fun i =>
        pyIndex ([0, 1, 2, 3, 4, 5, 6, 7, 8, 9, 10, 11, 12] : List Nat) i))
      = Except.ok [{ points := [], tri_indices := [0, 1] },
                   { points := [], tri_indices := [2] }] :=
  C2_three_triangles_two_components [0, 1, 2, 3, 4, 5, 6, 7, 8, 9, 10, 11, 12]
    (by decide)
    (by
      intro i hi j hj
      fin_cases hi <;> interval_cases j <;> decide)

/-! ## C1: reference/index round-trip -/

/-- A key absent from the array is absent from the identity dict. -/
theorem dictFind_eq_none (ids : List Nat) (x : Nat) (h : x ∉ ids) :
    dictFind ids x = none := by
  induction ids with
  | nil => rfl
  | cons a rest ih =>
    have hx : x ∉ rest := fun hm => h (List.mem_cons_of_mem _ hm)
    have ha : a ≠ x := fun he => h (he ▸ List.mem_cons_self a rest)
    simp only [dictFind, ih hx, if_neg ha]

/-- On a duplicate-free array the identity dict returns the unique position
of each entry. -/
theorem dictFind_nodup (ids : List Nat) (hnd : ids.Nodup) (i : Nat) (x : Nat)
    (h : ids[i]? = some x) : dictFind ids x = some i := by
  induction ids generalizing i with
  | nil => simp at h
  | cons a rest ih =>
    obtain ⟨hna, hndr⟩ := List.nodup_cons.mp hnd
    cases i with
    | zero =>
      simp only [List.getElem?_cons_zero, Option.some.injEq] at h
      subst h
      simp [dictFind, dictFind_eq_none rest a hna]
    | succ j =>
      simp only [List.getElem?_cons_succ] at h
      simp only [dictFind, ih hndr j h]

/-- Characterization of an in-place node-rewriting loop over a duplicate-free
slice of the node heap: it succeeds when the transform succeeds on every
visited node, changes nothing but the node heap, rewrites exactly the
visited slots by the transform, and leaves every other slot alone.  The
transform must only read the top-level arrays of the state, which the loop
never changes. -/
theorem nodeFold_spec (F : GltfState → NodeObj → Except Err NodeObj)
    (hstable : ∀ s1 s2 n, s1.nodes = s2.nodes → s1.meshes = s2.meshes →
      s1.accessors = s2.accessors → F s1 n = F s2 n) :
    ∀ (L : List Nat) (s : GltfState), L.Nodup →
      (∀ nid ∈ L, ∃ n, s.nodeHeap[nid]? = some n ∧ ∃ n2, F s n = Except.ok n2) →
      ∃ s2, L.foldlM (nodeStepM F) s = Except.ok s2 ∧
        s2 = { s with nodeHeap := s2.nodeHeap } ∧
        s2.nodeHeap.length = s.nodeHeap.length ∧
        (∀ nid ∈ L, ∀ n n2, s.nodeHeap[nid]? = some n → F s n = Except.ok n2 →
          s2.nodeHeap[nid]? = some n2) ∧
        (∀ j, j ∉ L → s2.nodeHeap[j]? = s.nodeHeap[j]?) := by
  intro L
  induction L with
  | nil =>
    intro s _ _
    refine ⟨s, rfl, rfl, rfl, ?_, fun j _ => rfl⟩
    intro nid hnid
    simp at hnid
  | cons nid rest ih =>
    intro s hnd hok
    obtain ⟨hnr, hndr⟩ := List.nodup_cons.mp hnd
    obtain ⟨n, hbn, n2, hFn⟩ := hok nid (List.mem_cons_self nid rest)
    have hlt : nid < s.nodeHeap.length := by
      by_contra hge
      rw [List.getElem?_eq_none_iff.mpr (Nat.le_of_not_lt hge)] at hbn
      exact absurd hbn (by simp)
    have hstep : nodeStepM F s nid = Except.ok (s.setNode nid n2) := by
      simp only [nodeStepM, GltfState.getNode, hbn, exceptOkBind, hFn, exceptPureEq]
    have harr : (s.setNode nid n2).nodes = s.nodes ∧
        (s.setNode nid n2).meshes = s.meshes ∧
        (s.setNode nid n2).accessors = s.accessors := ⟨rfl, rfl, rfl⟩
    have hok2 : ∀ m ∈ rest, ∃ nm, (s.setNode nid n2).nodeHeap[m]? = some nm ∧
        ∃ nm2, F (s.setNode nid n2) nm = Except.ok nm2 := by
      intro m hm
      obtain ⟨nm, hbm, nm2, hFm⟩ := hok m (List.mem_cons_of_mem _ hm)
      have hne : nid ≠ m := fun he => hnr (he ▸ hm)
      refine ⟨nm, ?_, nm2, ?_⟩
      · simp only [GltfState.setNode, List.getElem?_set_ne hne]
        exact hbm
      · rw [hstable _ s nm harr.1 harr.2.1 harr.2.2]
        exact hFm
    obtain ⟨s2, hfold, heq, hlen, hvals, huntouched⟩ := ih (s.setNode nid n2) hndr hok2
    refine ⟨s2, ?_, ?_, ?_, ?_, ?_⟩
    · rw [List.foldlM_cons, hstep, exceptOkBind]
      exact hfold
    · rw [heq]
      rfl
    · rw [hlen]
      simp [GltfState.setNode]
    · intro m hm nm nm2 hbm hFm
      rcases List.mem_cons.mp hm with he | hm2
      · subst he
        rw [hbn] at hbm
        cases hbm
        rw [hFn] at hFm
        cases hFm
        rw [huntouched m hnr]
        simp only [GltfState.setNode]
        exact List.getElem?_set_self hlt
      · apply hvals m hm2
        · have hne : nid ≠ m := fun he => hnr (he ▸ hm2)
          simp only [GltfState.setNode, List.getElem?_set_ne hne]
          exact hbm
        · rw [hstable _ s nm harr.1 harr.2.1 harr.2.2]
          exact hFm
    · intro j hj
      have hne : nid ≠ j := fun he => hj (he ▸ List.mem_cons_self nid rest)
      rw [huntouched j (fun hm => hj (List.mem_cons_of_mem _ hm))]
      simp only [GltfState.setNode, List.getElem?_set_ne hne]

/-- The primitive-heap analogue of `nodeFold_spec`, for an in-place
primitive-rewriting loop over an arbitrary duplicate-free list of primitive
heap indices. -/
theorem primFold_spec (F : GltfState → PrimObj → Except Err PrimObj)
    (hstable : ∀ s1 s2 p, s1.nodes = s2.nodes → s1.meshes = s2.meshes →
      s1.accessors = s2.accessors → F s1 p = F s2 p) :
    ∀ (L : List Nat) (s : GltfState), L.Nodup →
      (∀ pid ∈ L, ∃ p, s.primHeap[pid]? = some p ∧ ∃ p2, F s p = Except.ok p2) →
      ∃ s2, L.foldlM (primStepM F) s = Except.ok s2 ∧
        s2 = { s with primHeap := s2.primHeap } ∧
        s2.primHeap.length = s.primHeap.length ∧
        (∀ pid ∈ L, ∀ p p2, s.primHeap[pid]? = some p → F s p = Except.ok p2 →
          s2.primHeap[pid]? = some p2) ∧
        (∀ j, j ∉ L → s2.primHeap[j]? = s.primHeap[j]?) := by
  intro L
  induction L with
  | nil =>
    intro s _ _
    refine ⟨s, rfl, rfl, rfl, ?_, fun j _ => rfl⟩
    intro pid hpid
    simp at hpid
  | cons pid rest ih =>
    intro s hnd hok
    obtain ⟨hnr, hndr⟩ := List.nodup_cons.mp hnd
    obtain ⟨p, hbp, p2, hFp⟩ := hok pid (List.mem_cons_self pid rest)
    have hlt : pid < s.primHeap.length := by
      by_contra hge
      rw [List.getElem?_eq_none_iff.mpr (Nat.le_of_not_lt hge)] at hbp
      exact absurd hbp (by simp)
    have hstep : primStepM F s pid = Except.ok (s.setPrim pid p2) := by
      simp only [primStepM, GltfState.getPrim, hbp, exceptOkBind, hFp, exceptPureEq]
    have harr : (s.setPrim pid p2).nodes = s.nodes ∧
        (s.setPrim pid p2).meshes = s.meshes ∧
        (s.setPrim pid p2).accessors = s.accessors := ⟨rfl, rfl, rfl⟩
    have hok2 : ∀ m ∈ rest, ∃ pm, (s.setPrim pid p2).primHeap[m]? = some pm ∧
        ∃ pm2, F (s.setPrim pid p2) pm = Except.ok pm2 := by
      intro m hm
      obtain ⟨pm, hbm, pm2, hFm⟩ := hok m (List.mem_cons_of_mem _ hm)
      have hne : pid ≠ m := fun he => hnr (he ▸ hm)
      refine ⟨pm, ?_, pm2, ?_⟩
      · simp only [GltfState.setPrim, List.getElem?_set_ne hne]
        exact hbm
      · rw [hstable _ s pm harr.1 harr.2.1 harr.2.2]
        exact hFm
    obtain ⟨s2, hfold, heq, hlen, hvals, huntouched⟩ := ih (s.setPrim pid p2) hndr hok2
    refine ⟨s2, ?_, ?_, ?_, ?_, ?_⟩
    · rw [List.foldlM_cons, hstep, exceptOkBind]
      exact hfold
    · rw [heq]
      rfl
    · rw [hlen]
      simp [GltfState.setPrim]
    · intro m hm pm pm2 hbm hFm
      rcases List.mem_cons.mp hm with he | hm2
      · subst he
        rw [hbp] at hbm
        cases hbm
        rw [hFp] at hFm
        cases hFm
        rw [huntouched m hnr]
        simp only [GltfState.setPrim]
        exact List.getElem?_set_self hlt
      · apply hvals m hm2
        · have hne : pid ≠ m := fun he => hnr (he ▸ hm2)
          simp only [GltfState.setPrim, List.getElem?_set_ne hne]
          exact hbm
        · rw [hstable _ s pm harr.1 harr.2.1 harr.2.2]
          exact hFm
    · intro j hj
      have hne : pid ≠ j := fun he => hj (he ▸ List.mem_cons_self pid rest)
      rw [huntouched j (fun hm => hj (List.mem_cons_of_mem _ hm))]
      simp only [GltfState.setPrim, List.getElem?_set_ne hne]

/-- Characterization of the mesh loop of the accessor-reference transforms:
when the primitive indices reached through the mesh array are collectively
duplicate-free and the per-primitive transform succeeds on each, the loop
rewrites exactly those primitive-heap slots and nothing else. -/
theorem meshesFold_spec (F : GltfState → PrimObj → Except Err PrimObj)
    (hstable : ∀ s1 s2 p, s1.nodes = s2.nodes → s1.meshes = s2.meshes →
      s1.accessors = s2.accessors → F s1 p = F s2 p) :
    ∀ (M : List Nat) (s : GltfState) (plist : List Nat),
      collectPrims M s.meshHeap = some plist → plist.Nodup →
      (∀ pid ∈ plist, ∃ p, s.primHeap[pid]? = some p ∧ ∃ p2, F s p = Except.ok p2) →
      ∃ s2, M.foldlM (primsStepM F) s = Except.ok s2 ∧
        s2 = { s with primHeap := s2.primHeap } ∧
        s2.primHeap.length = s.primHeap.length ∧
        (∀ pid ∈ plist, ∀ p p2, s.primHeap[pid]? = some p → F s p = Except.ok p2 →
          s2.primHeap[pid]? = some p2) ∧
        (∀ j, j ∉ plist → s2.primHeap[j]? = s.primHeap[j]?) := by
  intro M
  induction M with
  | nil =>
    intro s plist hc hnd hok
    simp only [collectPrims, Option.some.injEq] at hc
    subst hc
    refine ⟨s, rfl, rfl, rfl, ?_, fun j _ => rfl⟩
    intro pid hpid
    simp at hpid
  | cons mid rest ih =>
    intro s plist hc hnd hok
    simp only [collectPrims, Option.bind_eq_bind, Option.bind_eq_some] at hc
    obtain ⟨m, hm, ps, hps, plr, hplr, hcat⟩ := hc
    simp only [Option.pure_def, Option.some.injEq] at hcat
    subst hcat
    have hndp : ps.Nodup := (List.nodup_append.mp hnd).1
    have hndr : plr.Nodup := (List.nodup_append.mp hnd).2.1
    have hdisj : ∀ x ∈ ps, x ∉ plr := by
      intro x hx
      exact (List.disjoint_left.mp (List.nodup_append.mp hnd).2.2) hx
    obtain ⟨s1, hfold1, heq1, hlen1, hvals1, huntouched1⟩ :=
      primFold_spec F hstable ps s hndp
        (fun pid hpid => hok pid (List.mem_append_left _ hpid))
    have hstep : primsStepM F s mid = ps.foldlM (primStepM F) s := by
      simp only [primsStepM, GltfState.getMesh, hm, exceptOkBind, hps, req]
    have hmh1 : s1.meshHeap = s.meshHeap := by rw [heq1]
    have hc2 : collectPrims rest s1.meshHeap = some plr := by rw [hmh1]; exact hplr
    have hok2 : ∀ pid ∈ plr, ∃ p, s1.primHeap[pid]? = some p ∧
        ∃ p2, F s1 p = Except.ok p2 := by
      intro pid hpid
      obtain ⟨p, hbp, p2, hFp⟩ := hok pid (List.mem_append_right _ hpid)
      have hnotin : pid ∉ ps := fun hps2 => hdisj pid hps2 hpid
      refine ⟨p, ?_, p2, ?_⟩
      · rw [huntouched1 pid hnotin]
        exact hbp
      · rw [hstable s1 s p (by rw [heq1]) (by rw [heq1]) (by rw [heq1])]
        exact hFp
    obtain ⟨s2, hfold2, heq2, hlen2, hvals2, huntouched2⟩ := ih s1 plr hc2 hndr hok2
    refine ⟨s2, ?_, ?_, ?_, ?_, ?_⟩
    · rw [List.foldlM_cons, hstep, hfold1, exceptOkBind]
      exact hfold2
    · rw [heq2, heq1]
    · rw [hlen2, hlen1]
    · intro pid hpid p p2 hbp hFp
      rcases List.mem_append.mp hpid with hpids | hpidr
      · have hnotin : pid ∉ plr := hdisj pid hpids
        rw [huntouched2 pid hnotin]
        exact hvals1 pid hpids p p2 hbp hFp
      · apply hvals2 pid hpidr
        · have hnotin : pid ∉ ps := fun hps2 => hdisj pid hps2 hpidr
          rw [huntouched1 pid hnotin]
          exact hbp
        · rw [hstable s1 s p (by rw [heq1]) (by rw [heq1]) (by rw [heq1])]
          exact hFp
    · intro j hj
      rw [huntouched2 j (fun hm2 => hj (List.mem_append_right _ hm2)),
        huntouched1 j (fun hm2 => hj (List.mem_append_left _ hm2))]

/-- Two element transforms that invert each other element-wise lift to
inverse `mapM`s. -/
theorem mapM_chain {α : Type} (f g : α → Except Err α) :
    ∀ (l : List α), (∀ x ∈ l, ∃ y, f x = Except.ok y ∧ g y = Except.ok x) →
      ∃ l2, l.mapM f = Except.ok l2 ∧ l2.mapM g = Except.ok l := by
  intro l
  induction l with
  | nil => intro _; exact ⟨[], rfl, rfl⟩
  | cons x rest ih =>
    intro h
    obtain ⟨y, hfy, hgy⟩ := h x (List.mem_cons_self x rest)
    obtain ⟨l2, hf2, hg2⟩ := ih (fun z hz => h z (List.mem_cons_of_mem _ hz))
    refine ⟨y :: l2, ?_, ?_⟩
    · rw [List.mapM_cons, hfy, exceptOkBind, hf2, exceptOkBind, exceptPureEq]
    · rw [List.mapM_cons, hgy, exceptOkBind, hg2, exceptOkBind, exceptPureEq]


/-- Dereferencing then reindexing one node restores it exactly, for a node
with no dangling links over duplicate-free top-level arrays. -/
theorem roundNodeF (s : GltfState) (n : NodeObj)
    (hnnd : s.nodes.Nodup) (hmnd : s.meshes.Nodup)
    (hch : ∀ l ∈ n.children.getD [], isIdxLt l s.nodes.length = true)
    (hm : ∀ l, n.mesh = some l → isIdxLt l s.meshes.length = true) :
    ∃ n2, derefNodeF s n = Except.ok n2 ∧ reindexNodeF s n2 = Except.ok n := by
  have hlink : ∀ l : Link, isIdxLt l s.nodes.length = true → ∃ y,
      (fun l2 => match l2 with
        | Link.idx i => (arrGet s.nodes i).map Link.ref
        | Link.ref _ => Except.error Err.typeError) l = Except.ok y ∧
      (fun l2 => match l2 with
        | Link.ref r =>
          match dictFind s.nodes r with
          | some i => pure (Link.idx i)
          | none => Except.error Err.keyError
        | Link.idx _ => Except.error Err.keyError) y = Except.ok l := by
    intro l hl
    cases l with
    | ref r => simp [isIdxLt] at hl
    | idx i =>
      simp only [isIdxLt, decide_eq_true_eq] at hl
      obtain ⟨t, ht⟩ := Option.ne_none_iff_exists'.mp
        (fun hnone => by rw [List.getElem?_eq_none_iff] at hnone; omega :
          s.nodes[i]? ≠ none)
      refine ⟨Link.ref t, ?_, ?_⟩
      · simp only [arrGet, ht]
        rfl
      · simp only [dictFind_nodup s.nodes hnnd i t ht]
        rfl
  cases hcn : n.children with
  | none =>
    cases hmn : n.mesh with
    | none =>
      refine ⟨n, ?_, ?_⟩
      · simp only [derefNodeF, hcn, exceptOkBind, hmn, exceptPureEq]
      · simp only [reindexNodeF, hmn, exceptOkBind, hcn, exceptPureEq]
    | some ml =>
      have hb := hm ml hmn
      cases ml with
      | ref r => simp [isIdxLt] at hb
      | idx i =>
        simp only [isIdxLt, decide_eq_true_eq] at hb
        obtain ⟨t, ht⟩ := Option.ne_none_iff_exists'.mp
          (fun hnone => by rw [List.getElem?_eq_none_iff] at hnone; omega :
            s.meshes[i]? ≠ none)
        refine ⟨{ n with mesh := some (Link.ref t) }, ?_, ?_⟩
        · simp only [derefNodeF, hcn, exceptOkBind, hmn, arrGet, ht, exceptPureEq]
        · simp only [reindexNodeF, dictFind_nodup s.meshes hmnd i t ht,
            exceptOkBind, hcn, exceptPureEq]
          rw [← hmn, ← hcn]
  | some ch =>
    have hchch : ∀ l ∈ ch, isIdxLt l s.nodes.length = true := by
      rw [hcn] at hch
      simpa using hch
    obtain ⟨ch2, hmap, hmapBack⟩ := mapM_chain
      (fun l2 => match l2 with
        | Link.idx i => (arrGet s.nodes i).map Link.ref
        | Link.ref _ => Except.error Err.typeError)
      (fun l2 => match l2 with
        | Link.ref r =>
          match dictFind s.nodes r with
          | some i => pure (Link.idx i)
          | none => Except.error Err.keyError
        | Link.idx _ => Except.error Err.keyError)
      ch (fun x hx => hlink x (hchch x hx))
    simp only [exceptPureEq] at hmap hmapBack
    cases hmn : n.mesh with
    | none =>
      refine ⟨{ n with children := some ch2 }, ?_, ?_⟩
      · simp only [derefNodeF, hcn, hmap, exceptOkBind, exceptPureEq, hmn]
      · simp only [reindexNodeF, hmn, exceptOkBind, hmapBack, exceptPureEq]
        rw [← hmn, ← hcn]
    | some ml =>
      have hb := hm ml hmn
      cases ml with
      | ref r => simp [isIdxLt] at hb
      | idx i =>
        simp only [isIdxLt, decide_eq_true_eq] at hb
        obtain ⟨t, ht⟩ := Option.ne_none_iff_exists'.mp
          (fun hnone => by rw [List.getElem?_eq_none_iff] at hnone; omega :
            s.meshes[i]? ≠ none)
        have hmt : arrGet s.meshes i = Except.ok t := by
          simp [arrGet, ht]
        refine ⟨{ n with children := some ch2, mesh := some (Link.ref t) }, ?_, ?_⟩
        · simp only [derefNodeF, hcn, hmap, exceptOkBind, exceptPureEq, hmn, hmt]
        · simp only [reindexNodeF, dictFind_nodup s.meshes hmnd i t ht,
            exceptOkBind, hmapBack, exceptPureEq]
          rw [← hmn, ← hcn]

/-- Dereferencing then reindexing one primitive restores it exactly, for a
primitive with no dangling accessor links over a duplicate-free accessor
array. -/
theorem roundPrimF (s : GltfState) (p : PrimObj)
    (hand : s.accessors.Nodup)
    (hat : ∀ kv ∈ p.attributes, isIdxLt (Prod.snd kv) s.accessors.length = true)
    (hix : ∀ l, p.indices = some l → isIdxLt l s.accessors.length = true) :
    ∃ p2, derefPrimF s p = Except.ok p2 ∧ reindexPrimF s p2 = Except.ok p := by
  have hlink : ∀ kv : String × Link, isIdxLt (Prod.snd kv) s.accessors.length = true → ∃ y,
      (fun (kv2 : String × Link) => match kv2.2 with
        | Link.idx i => (arrGet s.accessors i).map (fun t => (kv2.1, Link.ref t))
        | Link.ref _ => Except.error Err.typeError) kv = Except.ok y ∧
      (fun (kv2 : String × Link) => match kv2.2 with
        | Link.ref r =>
          match dictFind s.accessors r with
          | some i => pure (kv2.1, Link.idx i)
          | none => Except.error Err.keyError
        | Link.idx _ => Except.error Err.keyError) y = Except.ok kv := by
    intro kv hkv
    obtain ⟨name, l⟩ := kv
    cases l with
    | ref r => simp [isIdxLt] at hkv
    | idx i =>
      simp only [isIdxLt, decide_eq_true_eq] at hkv
      obtain ⟨t, ht⟩ := Option.ne_none_iff_exists'.mp
        (fun hnone => by rw [List.getElem?_eq_none_iff] at hnone; omega :
          s.accessors[i]? ≠ none)
      refine ⟨(name, Link.ref t), ?_, ?_⟩
      · simp only [arrGet, ht]
        rfl
      · simp only [dictFind_nodup s.accessors hand i t ht]
        rfl
  obtain ⟨at2, hmap, hmapBack⟩ := mapM_chain
    (fun (kv2 : String × Link) => match kv2.2 with
      | Link.idx i => (arrGet s.accessors i).map (fun t => (kv2.1, Link.ref t))
      | Link.ref _ => Except.error Err.typeError)
    (fun (kv2 : String × Link) => match kv2.2 with
      | Link.ref r =>
        match dictFind s.accessors r with
        | some i => pure (kv2.1, Link.idx i)
        | none => Except.error Err.keyError
      | Link.idx _ => Except.error Err.keyError)
    p.attributes (fun x hx => hlink x (hat x hx))
  simp only [exceptPureEq] at hmap hmapBack
  cases hpi : p.indices with
  | none =>
    refine ⟨{ p with attributes := at2 }, ?_, ?_⟩
    · simp only [derefPrimF, hmap, exceptOkBind, exceptPureEq, hpi]
    · simp only [reindexPrimF, hmapBack, exceptOkBind, exceptPureEq, hpi]
      rw [← hpi]
  | some il =>
    have hb := hix il hpi
    cases il with
    | ref r => simp [isIdxLt] at hb
    | idx i =>
      simp only [isIdxLt, decide_eq_true_eq] at hb
      obtain ⟨t, ht⟩ := Option.ne_none_iff_exists'.mp
        (fun hnone => by rw [List.getElem?_eq_none_iff] at hnone; omega :
          s.accessors[i]? ≠ none)
      have hmt : arrGet s.accessors i = Except.ok t := by
        simp [arrGet, ht]
      refine ⟨{ p with attributes := at2, indices := some (Link.ref t) }, ?_, ?_⟩
      · simp only [derefPrimF, hmap, exceptOkBind, exceptPureEq, hpi, hmt]
      · simp only [reindexPrimF, hmapBack, exceptOkBind, exceptPureEq,
          dictFind_nodup s.accessors hand i t ht]
        rw [← hpi]

/-- Unpack the Boolean node well-formedness check. -/
theorem nodeOk_decomp (s : GltfState) (nid : Nat) (h : nodeOk s nid = true) :
    ∃ n, s.nodeHeap[nid]? = some n ∧
      (∀ l ∈ n.children.getD [], isIdxLt l s.nodes.length = true) ∧
      (∀ l, n.mesh = some l → isIdxLt l s.meshes.length = true) := by
  unfold nodeOk at h
  cases hb : s.nodeHeap[nid]? with
  | none =>
    rw [hb] at h
    simp at h
  | some n =>
    rw [hb] at h
    simp only [Bool.and_eq_true, List.all_eq_true] at h
    refine ⟨n, rfl, h.1, ?_⟩
    intro l hl
    have h2 := h.2
    rw [hl] at h2
    simpa using h2

/-- Unpack the Boolean primitive well-formedness check. -/
theorem primOk_decomp (s : GltfState) (pid : Nat) (h : primOk s pid = true) :
    ∃ p, s.primHeap[pid]? = some p ∧
      (∀ kv ∈ p.attributes, isIdxLt (Prod.snd kv) s.accessors.length = true) ∧
      (∀ l, p.indices = some l → isIdxLt l s.accessors.length = true) := by
  unfold primOk at h
  cases hb : s.primHeap[pid]? with
  | none =>
    rw [hb] at h
    simp at h
  | some p =>
    rw [hb] at h
    simp only [Bool.and_eq_true, List.all_eq_true] at h
    refine ⟨p, rfl, h.1, ?_⟩
    intro l hl
    have h2 := h.2
    rw [hl] at h2
    simpa using h2

/-- C1: on a document in index mode with no dangling indices (every node
link and every primitive link an in-bounds index, each object appearing once
in its top-level array — Python object identity), switching the node/mesh
links to reference form and back, and likewise the primitive/accessor links,
restores the document exactly. -/
theorem C1_reference_index_roundtrip (s : GltfState) (plist : List Nat)
    (hnmr : s.nmr = false) (haref : s.aref = false)
    (hnnd : s.nodes.Nodup) (hmnd : s.meshes.Nodup) (hand : s.accessors.Nodup)
    (hnodes : ∀ nid ∈ s.nodes, nodeOk s nid = true)
    (hcp : collectPrims s.meshes s.meshHeap = some plist)
    (hpnd : plist.Nodup)
    (hprims : ∀ pid ∈ plist, primOk s pid = true) :
    (setNodeMeshReference s true >>= fun s1 => setNodeMeshReference s1 false)
      = Except.ok s ∧
    (setAccessorReference s true >>= fun s1 => setAccessorReference s1 false)
      = Except.ok s := by
  constructor
  · have hstD : ∀ s1 s2 n, s1.nodes = s2.nodes → s1.meshes = s2.meshes →
        s1.accessors = s2.accessors → derefNodeF s1 n = derefNodeF s2 n := by
      intro s1 s2 n h1 h2 _
      unfold derefNodeF
      rw [h1, h2]
    have hstR : ∀ s1 s2 n, s1.nodes = s2.nodes → s1.meshes = s2.meshes →
        s1.accessors = s2.accessors → reindexNodeF s1 n = reindexNodeF s2 n := by
      intro s1 s2 n h1 h2 _
      unfold reindexNodeF
      rw [h1, h2]
    have hconds : ∀ nid ∈ s.nodes, ∃ n,
        ({ s with nmr := true } : GltfState).nodeHeap[nid]? = some n ∧
        ∃ n2, derefNodeF { s with nmr := true } n = Except.ok n2 := by
      intro nid hnid
      obtain ⟨n, hb, hch, hm⟩ := nodeOk_decomp s nid (hnodes nid hnid)
      obtain ⟨n2, hd, _⟩ := roundNodeF { s with nmr := true } n hnnd hmnd hch hm
      exact ⟨n, hb, n2, hd⟩
    obtain ⟨sA, hfoldA, heqA, hlenA, hvalsA, huntA⟩ :=
      nodeFold_spec derefNodeF hstD s.nodes { s with nmr := true } hnnd hconds
    have hA : setNodeMeshReference s true = Except.ok sA := by
      rw [setNodeMeshReference]
      simp only [hnmr, Bool.true_eq_false, reduceIte, setNodeMeshReferencesCore]
      exact hfoldA
    have hnA : sA.nmr = true := by rw [heqA]
    have hfnodes : sA.nodes = s.nodes := by rw [heqA]
    have hconds2 : ∀ nid ∈ s.nodes, ∃ n2,
        ({ sA with nmr := false } : GltfState).nodeHeap[nid]? = some n2 ∧
        ∃ n3, reindexNodeF { sA with nmr := false } n2 = Except.ok n3 := by
      intro nid hnid
      obtain ⟨n, hb, hch, hm⟩ := nodeOk_decomp s nid (hnodes nid hnid)
      obtain ⟨n2, hd, hr⟩ := roundNodeF { s with nmr := true } n hnnd hmnd hch hm
      have hbA : sA.nodeHeap[nid]? = some n2 := hvalsA nid hnid n n2 hb hd
      refine ⟨n2, hbA, n, ?_⟩
      rw [hstR { sA with nmr := false } { s with nmr := true } n2
        (by rw [heqA]) (by rw [heqA]) (by rw [heqA])]
      exact hr
    obtain ⟨sB, hfoldB, heqB, hlenB, hvalsB, huntB⟩ :=
      nodeFold_spec reindexNodeF hstR s.nodes { sA with nmr := false } hnnd hconds2
    have hB : setNodeMeshReference sA false = Except.ok sB := by
      rw [setNodeMeshReference]
      simp only [hnA, Bool.false_eq_true, reduceIte, setNodeMeshIndicesCore]
      have hfoldB2 := hfoldB
      rw [← hfnodes] at hfoldB2
      exact hfoldB2
    have hheap : sB.nodeHeap = s.nodeHeap := by
      apply List.ext_getElem?_iff.mpr
      intro i
      by_cases hmem : i ∈ s.nodes
      · obtain ⟨n, hb, hch, hm⟩ := nodeOk_decomp s i (hnodes i hmem)
        obtain ⟨n2, hd, hr⟩ := roundNodeF { s with nmr := true } n hnnd hmnd hch hm
        have hbA : sA.nodeHeap[i]? = some n2 := hvalsA i hmem n n2 hb hd
        have hr2 : reindexNodeF { sA with nmr := false } n2 = Except.ok n := by
          rw [hstR { sA with nmr := false } { s with nmr := true } n2
            (by rw [heqA]) (by rw [heqA]) (by rw [heqA])]
          exact hr
        have hfin : sB.nodeHeap[i]? = some n := hvalsB i hmem n2 n hbA hr2
        rw [hfin, hb]
      · exact (huntB i hmem).trans (huntA i hmem)
    have hsBs : sB = s := by
      have h1 : sB = { s with nmr := false, nodeHeap := sB.nodeHeap } := by
        rw [heqB, heqA]
      rw [h1, hheap, ← hnmr]
    rw [hA, exceptOkBind, hB, hsBs]
  · have hstD : ∀ s1 s2 p, s1.nodes = s2.nodes → s1.meshes = s2.meshes →
        s1.accessors = s2.accessors → derefPrimF s1 p = derefPrimF s2 p := by
      intro s1 s2 p _ _ h3
      unfold derefPrimF
      rw [h3]
    have hstR : ∀ s1 s2 p, s1.nodes = s2.nodes → s1.meshes = s2.meshes →
        s1.accessors = s2.accessors → reindexPrimF s1 p = reindexPrimF s2 p := by
      intro s1 s2 p _ _ h3
      unfold reindexPrimF
      rw [h3]
    have hconds : ∀ pid ∈ plist, ∃ p,
        ({ s with aref := true } : GltfState).primHeap[pid]? = some p ∧
        ∃ p2, derefPrimF { s with aref := true } p = Except.ok p2 := by
      intro pid hpid
      obtain ⟨p, hb, hat, hix⟩ := primOk_decomp s pid (hprims pid hpid)
      obtain ⟨p2, hd, _⟩ := roundPrimF { s with aref := true } p hand hat hix
      exact ⟨p, hb, p2, hd⟩
    obtain ⟨sA, hfoldA, heqA, hlenA, hvalsA, huntA⟩ :=
      meshesFold_spec derefPrimF hstD s.meshes { s with aref := true } plist
        hcp hpnd hconds
    have hA : setAccessorReference s true = Except.ok sA := by
      rw [setAccessorReference]
      simp only [haref, Bool.true_eq_false, reduceIte, addAccessorReferenceCore]
      exact hfoldA
    have hnA : sA.aref = true := by rw [heqA]
    have hfmeshes : sA.meshes = s.meshes := by rw [heqA]
    have hmh : sA.meshHeap = s.meshHeap := by rw [heqA]
    have hcp2 : collectPrims s.meshes
        ({ sA with aref := false } : GltfState).meshHeap = some plist := by
      have : ({ sA with aref := false } : GltfState).meshHeap = s.meshHeap := hmh
      rw [this]
      exact hcp
    have hconds2 : ∀ pid ∈ plist, ∃ p2,
        ({ sA with aref := false } : GltfState).primHeap[pid]? = some p2 ∧
        ∃ p3, reindexPrimF { sA with aref := false } p2 = Except.ok p3 := by
      intro pid hpid
      obtain ⟨p, hb, hat, hix⟩ := primOk_decomp s pid (hprims pid hpid)
      obtain ⟨p2, hd, hr⟩ := roundPrimF { s with aref := true } p hand hat hix
      have hbA : sA.primHeap[pid]? = some p2 := hvalsA pid hpid p p2 hb hd
      refine ⟨p2, hbA, p, ?_⟩
      rw [hstR { sA with aref := false } { s with aref := true } p2
        (by rw [heqA]) (by rw [heqA]) (by rw [heqA])]
      exact hr
    obtain ⟨sB, hfoldB, heqB, hlenB, hvalsB, huntB⟩ :=
      meshesFold_spec reindexPrimF hstR s.meshes { sA with aref := false } plist
        hcp2 hpnd hconds2
    have hB : setAccessorReference sA false = Except.ok sB := by
      rw [setAccessorReference]
      simp only [hnA, Bool.false_eq_true, reduceIte, removeAccessorReferenceCore]
      have hfoldB2 := hfoldB
      rw [← hfmeshes] at hfoldB2
      exact hfoldB2
    have hheap : sB.primHeap = s.primHeap := by
      apply List.ext_getElem?_iff.mpr
      intro i
      by_cases hmem : i ∈ plist
      · obtain ⟨p, hb, hat, hix⟩ := primOk_decomp s i (hprims i hmem)
        obtain ⟨p2, hd, hr⟩ := roundPrimF { s with aref := true } p hand hat hix
        have hbA : sA.primHeap[i]? = some p2 := hvalsA i hmem p p2 hb hd
        have hr2 : reindexPrimF { sA with aref := false } p2 = Except.ok p := by
          rw [hstR { sA with aref := false } { s with aref := true } p2
            (by rw [heqA]) (by rw [heqA]) (by rw [heqA])]
          exact hr
        have hfin : sB.primHeap[i]? = some p := hvalsB i hmem p2 p hbA hr2
        rw [hfin, hb]
      · exact (huntB i hmem).trans (huntA i hmem)
    have hsBs : sB = s := by
      have h1 : sB = { s with aref := false, primHeap := sB.primHeap } := by
        rw [heqB, heqA]
      rw [h1, hheap, ← haref]
    rw [hA, exceptOkBind, hB, hsBs]

/-- C1 witness: the round-trip theorem applied to the concrete document with
two nodes, one three-primitive mesh, and only in-bounds index links. -/
theorem C1_witness_roundtrip_concrete :
    (setNodeMeshReference D4 true >>= fun s1 => setNodeMeshReference s1 false)
      = Except.ok D4 ∧
    (setAccessorReference D4 true >>= fun s1 => setAccessorReference s1 false)
      = Except.ok D4 :=
  C1_reference_index_roundtrip D4 [0, 1, 2] rfl rfl (by decide) (by decide)
    (by decide) (by decide) rfl (by decide) (by decide)

/-! ## C6: alignment after a reverse materialization -/

/-- A successful bind splits into a successful first stage and a successful
continuation. -/
theorem exceptBindOk {ε α β : Type} (x : Except ε α) (f : α → Except ε β) (b : β)
    (h : (x >>= f) = Except.ok b) : ∃ a, x = Except.ok a ∧ f a = Except.ok b := by
  cases x with
  | error e =>
    rw [exceptErrorBind] at h
    exact absurd h (by simp)
  | ok a => exact ⟨a, rfl, h⟩

/-- Rounding up to a multiple of 4 yields a multiple of 4. -/
theorem align_mod4 (n : Nat) : align n 4 % 4 = 0 := by
  unfold align
  exact Nat.mul_mod_left _ 4

/-- `insertByKey` inserts, up to permutation. -/
theorem insertByKey_perm {α : Type} (k : α → Nat × Nat) (x : α) (l : List α) :
    (insertByKey k x l).Perm (x :: l) := by
  induction l with
  | nil => exact List.Perm.refl _
  | cons y ys ih =>
    by_cases hy : pairLe (k y) (k x) = true
    · simp only [insertByKey, if_pos hy]
      exact (List.Perm.cons y ih).trans (List.Perm.swap x y ys)
    · simp only [insertByKey, if_neg hy]
      exact List.Perm.refl _

/-- `sortByKey` permutes its input. -/
theorem sortByKey_perm {α : Type} (k : α → Nat × Nat) (l : List α) :
    (sortByKey k l).Perm l := by
  suffices h : ∀ (l acc : List α),
      (l.foldl (fun a x => insertByKey k x a) acc).Perm (l ++ acc) by
    have h2 := h l []
    rw [List.append_nil] at h2
    exact h2
  intro l
  induction l with
  | nil => intro acc; exact List.Perm.refl _
  | cons x xs ih =>
    intro acc
    rw [List.foldl_cons]
    refine (ih (insertByKey k x acc)).trans ?_
    refine (List.Perm.append_left xs (insertByKey_perm k x acc)).trans ?_
    exact List.perm_middle

/-- A monadic map that succeeds preserves the length. -/
theorem mapM_ok_length {α β : Type} (g : α → Except Err β) :
    ∀ (l : List α) (l2 : List β), l.mapM g = Except.ok l2 → l2.length = l.length := by
  intro l
  induction l with
  | nil =>
    intro l2 h
    simp only [List.mapM_nil] at h
    cases h
    rfl
  | cons x xs ih =>
    intro l2 h
    rw [List.mapM_cons] at h
    obtain ⟨y, hy, h⟩ := exceptBindOk _ _ _ h
    obtain ⟨ys, hys, h⟩ := exceptBindOk _ _ _ h
    rw [exceptPureEq] at h
    cases h
    simp [ih ys hys]

/-- A monadic map whose element results carry the input in their first
component maps `Prod.fst` back to the input list. -/
theorem mapM_fst {β : Type} (g : Nat → Except Err (Nat × β))
    (hg : ∀ x y, g x = Except.ok y → y.1 = x) :
    ∀ (l : List Nat) (l2 : List (Nat × β)), l.mapM g = Except.ok l2 →
      l2.map Prod.fst = l := by
  intro l
  induction l with
  | nil =>
    intro l2 h
    simp only [List.mapM_nil] at h
    cases h
    rfl
  | cons x xs ih =>
    intro l2 h
    rw [List.mapM_cons] at h
    obtain ⟨y, hy, h⟩ := exceptBindOk _ _ _ h
    obtain ⟨ys, hys, h⟩ := exceptBindOk _ _ _ h
    rw [exceptPureEq] at h
    cases h
    simp only [List.map_cons, hg x y hy, ih ys hys]

/-- Every accessor array entry appears in the repack's sorted order. -/
theorem mem_sortedAccIds (s : GltfState) (order : List Nat)
    (h : sortedAccIds s = Except.ok order) :
    ∀ aid ∈ s.accessors, aid ∈ order := by
  intro aid haid
  unfold sortedAccIds at h
  obtain ⟨pairs, hpairs, h⟩ := exceptBindOk _ _ _ h
  rw [exceptPureEq] at h
  cases h
  have hfst : pairs.map Prod.fst = s.accessors := by
    apply mapM_fst _ _ s.accessors pairs hpairs
    intro x y hy
    obtain ⟨a, ha, hy⟩ := exceptBindOk _ _ _ hy
    rw [exceptPureEq] at hy
    cases hy
    rfl
  rw [← hfst] at haid
  obtain ⟨pr, hpr, hpr2⟩ := List.mem_map.mp haid
  refine List.mem_map.mpr ⟨pr, ?_, hpr2⟩
  exact ((sortByKey_perm Prod.snd pairs).mem_iff).mpr hpr

/-- Every buffer-view index appears in the repack's sorted view order. -/
theorem mem_sortedViewIdxs (s : GltfState) (i : Nat)
    (hi : i < s.bufferViews.length) : i ∈ sortedViewIdxs s := by
  unfold sortedViewIdxs
  apply List.mem_map.mpr
  refine ⟨(match s.bufferViews[i]? with
    | some bv => (i, (bv.buffer, bv.byteOffset))
    | none => (i, (0, 0))), ?_, ?_⟩
  · apply ((sortByKey_perm Prod.snd _).mem_iff).mpr
    apply List.mem_map.mpr
    exact ⟨i, List.mem_range.mpr hi, rfl⟩
  · cases s.bufferViews[i]? <;> rfl

/-- Rounding up to a multiple of 4 never decreases the value. -/
theorem le_align4 (n : Nat) : n ≤ align n 4 := by
  unfold align
  omega

/-- What a successful accessor repack step did: all four reads succeeded and
the state was updated by appending the accessor's bytes at the aligned end
of its view and rewriting the accessor's offset. -/
theorem repackAccStep_ok (s : GltfState) (aid : Nat) (s1 : GltfState)
    (h : repackAccStep s aid = Except.ok s1) :
    ∃ acc bv bvData accData,
      s.accHeap[aid]? = some acc ∧
      s.bufferViews[acc.bufferView]? = some bv ∧
      bv.data = some bvData ∧ acc.data = some accData ∧
      s1.accHeap = s.accHeap.set aid
        { acc with byteOffset := align bvData.length 4, data := none } ∧
      s1.bufferViews = s.bufferViews.set acc.bufferView
        { bv with data := some (bvData ++
            List.replicate (align bvData.length 4 - bvData.length) 0 ++ accData) } ∧
      s1 = { s with accHeap := s1.accHeap, bufferViews := s1.bufferViews } := by
  unfold repackAccStep at h
  cases hacc : s.accHeap[aid]? with
  | none =>
    rw [show GltfState.getAcc s aid = Except.error Err.keyError from by
      simp [GltfState.getAcc, hacc], exceptErrorBind] at h
    exact absurd h (by simp)
  | some acc =>
    rw [show GltfState.getAcc s aid = Except.ok acc from by
      simp [GltfState.getAcc, hacc], exceptOkBind] at h
    cases hbv : s.bufferViews[acc.bufferView]? with
    | none =>
      rw [show arrGet s.bufferViews acc.bufferView = Except.error Err.indexError from by
        simp [arrGet, hbv], exceptErrorBind] at h
      exact absurd h (by simp)
    | some bv =>
      rw [show arrGet s.bufferViews acc.bufferView = Except.ok bv from by
        simp [arrGet, hbv], exceptOkBind] at h
      cases hbd : bv.data with
      | none =>
        rw [hbd] at h
        rw [show req (none : Option (List Nat)) = Except.error Err.keyError from rfl,
          exceptErrorBind] at h
        exact absurd h (by simp)
      | some bvData =>
        rw [hbd] at h
        rw [show req (some bvData) = Except.ok bvData from rfl, exceptOkBind] at h
        cases had : acc.data with
        | none =>
          rw [had] at h
          rw [show req (none : Option (List Nat)) = Except.error Err.keyError from rfl,
            exceptErrorBind] at h
          exact absurd h (by simp)
        | some accData =>
          rw [had] at h
          rw [show req (some accData) = Except.ok accData from rfl, exceptOkBind,
            exceptPureEq] at h
          cases h
          exact ⟨acc, bv, bvData, accData, rfl, hbv, hbd, had, rfl, rfl, rfl⟩

/-- After a successful pass of the accessor repack loop, every visited
accessor exists, has a 4-byte-aligned `byteOffset` and no data; unvisited
heap slots are untouched, and only the accessor heap and the buffer views
changed. -/
theorem repackAccFold_align :
    ∀ (A : List Nat) (s s1 : GltfState), A.foldlM repackAccStep s = Except.ok s1 →
      (∀ aid ∈ A, ∃ acc, s1.accHeap[aid]? = some acc ∧ acc.byteOffset % 4 = 0) ∧
      (∀ j, j ∉ A → s1.accHeap[j]? = s.accHeap[j]?) ∧
      s1 = { s with accHeap := s1.accHeap, bufferViews := s1.bufferViews } ∧
      s1.bufferViews.length = s.bufferViews.length := by
  intro A
  induction A with
  | nil =>
    intro s s1 h
    rw [List.foldlM_nil, exceptPureEq] at h
    cases h
    exact ⟨by intro aid haid; simp at haid, fun j _ => rfl, rfl, rfl⟩
  | cons aid rest ih =>
    intro s s1 h
    rw [List.foldlM_cons] at h
    obtain ⟨smid, hstep, hrest⟩ := exceptBindOk _ _ _ h
    obtain ⟨acc, bv, bvData, accData, hacc, hbv, hbd, had, hsmA, hsmV, hsmF⟩ :=
      repackAccStep_ok s aid smid hstep
    obtain ⟨ihal, ihun, ihframe, ihlen⟩ := ih smid s1 hrest
    have haidlt : aid < s.accHeap.length := by
      by_contra hge
      rw [List.getElem?_eq_none_iff.mpr (Nat.le_of_not_lt hge)] at hacc
      exact absurd hacc (by simp)
    refine ⟨?_, ?_, ?_, ?_⟩
    · intro a ha
      by_cases har : a ∈ rest
      · exact ihal a har
      · rcases List.mem_cons.mp ha with he | hr
        · subst he
          rw [ihun a har, hsmA]
          exact ⟨_, List.getElem?_set_self haidlt, align_mod4 bvData.length⟩
        · exact absurd hr har
    · intro j hj
      have hjne : aid ≠ j := fun he => hj (he ▸ List.mem_cons_self aid rest)
      rw [ihun j (fun hm => hj (List.mem_cons_of_mem _ hm)), hsmA,
        List.getElem?_set_ne hjne]
    · rw [ihframe, hsmF]
    · rw [ihlen, hsmV, List.length_set]

/-- What a successful view repack step did: the reads succeeded, the
buffer's running length was already 4-aligned (otherwise the negative
`bytearray` count raises), and the view's bytes were appended with the view
re-addressed at the aligned offset. -/
theorem repackViewStep_ok (s : GltfState) (vi : Nat) (s1 : GltfState)
    (h : repackViewStep s vi = Except.ok s1) :
    ∃ bv buf bufData bvData,
      s.bufferViews[vi]? = some bv ∧
      s.buffers[bv.buffer]? = some buf ∧
      buf.data = some bufData ∧ bv.data = some bvData ∧
      align bufData.length 4 = bufData.length ∧
      s1.buffers = s.buffers.set bv.buffer
        { buf with data := some (bufData ++ (bvData ++ List.replicate
            ((bufData.length : Int) - (align bufData.length 4 : Int)).toNat 0)) } ∧
      s1.bufferViews = s.bufferViews.set vi
        { bv with byteOffset := align bufData.length 4, data := none } ∧
      s1 = { s with buffers := s1.buffers, bufferViews := s1.bufferViews } := by
  unfold repackViewStep at h
  cases hbv : s.bufferViews[vi]? with
  | none =>
    rw [show arrGet s.bufferViews vi = Except.error Err.indexError from by
      simp [arrGet, hbv], exceptErrorBind] at h
    exact absurd h (by simp)
  | some bv =>
    rw [show arrGet s.bufferViews vi = Except.ok bv from by
      simp [arrGet, hbv], exceptOkBind] at h
    cases hbuf : s.buffers[bv.buffer]? with
    | none =>
      rw [show arrGet s.buffers bv.buffer = Except.error Err.indexError from by
        simp [arrGet, hbuf], exceptErrorBind] at h
      exact absurd h (by simp)
    | some buf =>
      rw [show arrGet s.buffers bv.buffer = Except.ok buf from by
        simp [arrGet, hbuf], exceptOkBind] at h
      cases hbfd : buf.data with
      | none =>
        rw [hbfd] at h
        rw [show req (none : Option (List Nat)) = Except.error Err.keyError from rfl,
          exceptErrorBind] at h
        exact absurd h (by simp)
      | some bufData =>
        rw [hbfd] at h
        rw [show req (some bufData) = Except.ok bufData from rfl, exceptOkBind] at h
        by_cases hpad : ((bufData.length : Int) - (align bufData.length 4 : Int)) < 0
        · rw [if_pos hpad] at h
          exact absurd h (by simp)
        · rw [if_neg hpad] at h
          have hal : align bufData.length 4 = bufData.length := by
            have h1 := le_align4 bufData.length
            omega
          cases hbvd : bv.data with
          | none =>
            rw [hbvd] at h
            rw [show req (none : Option (List Nat)) = Except.error Err.keyError from rfl,
              exceptErrorBind] at h
            exact absurd h (by simp)
          | some bvData =>
            rw [hbvd] at h
            rw [show req (some bvData) = Except.ok bvData from rfl, exceptOkBind,
              exceptPureEq] at h
            cases h
            exact ⟨bv, buf, bufData, bvData, rfl, hbuf, hbfd, hbvd, hal, rfl, rfl, rfl⟩

/-- After a successful pass of the view repack loop, every visited buffer
view exists and has a 4-byte-aligned `byteOffset`; unvisited view slots are
untouched, and only the buffers and the buffer views changed. -/
theorem repackViewFold_align :
    ∀ (V : List Nat) (s s1 : GltfState), V.foldlM repackViewStep s = Except.ok s1 →
      (∀ vi ∈ V, ∃ bv, s1.bufferViews[vi]? = some bv ∧ bv.byteOffset % 4 = 0) ∧
      (∀ j, j ∉ V → s1.bufferViews[j]? = s.bufferViews[j]?) ∧
      s1 = { s with buffers := s1.buffers, bufferViews := s1.bufferViews } ∧
      s1.bufferViews.length = s.bufferViews.length := by
  intro V
  induction V with
  | nil =>
    intro s s1 h
    rw [List.foldlM_nil, exceptPureEq] at h
    cases h
    exact ⟨by intro vi hvi; simp at hvi, fun j _ => rfl, rfl, rfl⟩
  | cons vi rest ih =>
    intro s s1 h
    rw [List.foldlM_cons] at h
    obtain ⟨smid, hstep, hrest⟩ := exceptBindOk _ _ _ h
    obtain ⟨bv, buf, bufData, bvData, hbv, hbuf, hbfd, hbvd, hal, hsmB, hsmV, hsmF⟩ :=
      repackViewStep_ok s vi smid hstep
    obtain ⟨ihal, ihun, ihframe, ihlen⟩ := ih smid s1 hrest
    have hvilt : vi < s.bufferViews.length := by
      by_contra hge
      rw [List.getElem?_eq_none_iff.mpr (Nat.le_of_not_lt hge)] at hbv
      exact absurd hbv (by simp)
    refine ⟨?_, ?_, ?_, ?_⟩
    · intro v hv
      by_cases hvr : v ∈ rest
      · exact ihal v hvr
      · rcases List.mem_cons.mp hv with he | hr
        · subst he
          rw [ihun v hvr, hsmV]
          exact ⟨_, List.getElem?_set_self hvilt, align_mod4 bufData.length⟩
        · exact absurd hr hvr
    · intro j hj
      have hjne : vi ≠ j := fun he => hj (he ▸ List.mem_cons_self vi rest)
      rw [ihun j (fun hm => hj (List.mem_cons_of_mem _ hm)), hsmV,
        List.getElem?_set_ne hjne]
    · rw [ihframe, hsmF]
    · rw [ihlen, hsmV, List.length_set]
/-- C6: after a reverse materialization (`_remove_accessor_data`), every
buffer view's `byteOffset` within its buffer and every accessor's
`byteOffset` within its buffer view is a multiple of 4. -/
theorem C6_repack_aligns_offsets (s s2 : GltfState)
    (h : removeAccessorDataCore s = Except.ok s2) :
    (∀ j, j < s2.bufferViews.length →
      ∃ bv, s2.bufferViews[j]? = some bv ∧ bv.byteOffset % 4 = 0) ∧
    (∀ aid ∈ s2.accessors,
      ∃ acc, s2.accHeap[aid]? = some acc ∧ acc.byteOffset % 4 = 0) := by
  simp only [removeAccessorDataCore] at h
  obtain ⟨accOrder, hord, h⟩ := exceptBindOk _ _ _ h
  obtain ⟨sB, hfoldA, h⟩ := exceptBindOk _ _ _ h
  obtain ⟨newViews, hnv, h⟩ := exceptBindOk _ _ _ h
  obtain ⟨hAal, hAun, hAframe, hAlen⟩ := repackAccFold_align accOrder _ sB hfoldA
  obtain ⟨hEal, hEun, hEframe, hElen⟩ := repackViewFold_align _ _ s2 h
  constructor
  · intro j hj
    rw [hElen] at hj
    exact hEal j (mem_sortedViewIdxs _ j hj)
  · intro aid haid
    have hacc2 : s2.accessors = s.accessors := by rw [hEframe, hAframe]
    have haidS : aid ∈ s.accessors := hacc2 ▸ haid
    have haidO : aid ∈ accOrder := mem_sortedAccIds _ accOrder hord aid haidS
    obtain ⟨acc, haccB, hal4⟩ := hAal aid haidO
    refine ⟨acc, ?_, hal4⟩
    have hheap : s2.accHeap = sB.accHeap := by rw [hEframe]
    rw [hheap, haccB]

/-- Witness: the repack of the concrete materialized document `D5` succeeds
and, by `C6_repack_aligns_offsets`, yields 4-aligned view offsets. -/
theorem C6_witness_concrete :
    ∃ s2, removeAccessorDataCore D5 = Except.ok s2 ∧
      ((∀ j, j < s2.bufferViews.length →
        ∃ bv, s2.bufferViews[j]? = some bv ∧ bv.byteOffset % 4 = 0) ∧
      (∀ aid ∈ s2.accessors,
        ∃ acc, s2.accHeap[aid]? = some acc ∧ acc.byteOffset % 4 = 0)) := by
  have hOk : (removeAccessorDataCore D5).isOk = true := rfl
  cases hres : removeAccessorDataCore D5 with
  | error e =>
    rw [hres] at hOk
    exact absurd hOk (by simp [Except.isOk, Except.toBool])
  | ok s2 =>
    exact ⟨s2, rfl, C6_repack_aligns_offsets D5 s2 hres⟩
/-- Rounding up to a multiple of 4 is monotone. -/
theorem align_mono {m n : Nat} (h : m ≤ n) : align m 4 ≤ align n 4 := by
  unfold align
  omega

/-- Every offset assigned by an align-and-append walk is at least the
starting position. -/
theorem offsetsFrom_lb : ∀ (ls : List Nat) (start : Nat),
    ∀ x ∈ offsetsFrom start ls, start ≤ x := by
  intro ls
  induction ls with
  | nil =>
    intro start x hx
    simp [offsetsFrom] at hx
  | cons l t ih =>
    intro start x hx
    simp only [offsetsFrom, List.mem_cons] at hx
    rcases hx with he | ht
    · exact he ▸ le_align4 start
    · have h1 := ih (align start 4 + l) x ht
      have h2 := le_align4 start
      omega

/-- The offsets assigned by an align-and-append walk are non-decreasing. -/
theorem offsetsFrom_chain : ∀ (ls : List Nat) (start : Nat),
    (offsetsFrom start ls).Chain' (· ≤ ·) := by
  intro ls
  induction ls with
  | nil =>
    intro start
    simp [offsetsFrom]
  | cons l t ih =>
    intro start
    simp only [offsetsFrom]
    refine List.chain'_cons'.mpr ⟨?_, ih _⟩
    intro y hy
    have hym := List.mem_of_mem_head? hy
    have h1 := offsetsFrom_lb t (align start 4 + l) y hym
    omega

/-- `filterMap` only depends on the function's values on the list. -/
theorem filterMap_congr_mem {α β : Type} {f g : α → Option β} :
    ∀ (l : List α), (∀ a ∈ l, f a = g a) → l.filterMap f = l.filterMap g := by
  intro l
  induction l with
  | nil => intro _; rfl
  | cons a t ih =>
    intro h
    rw [List.filterMap_cons, List.filterMap_cons, h a (List.mem_cons_self a t),
      ih (fun b hb => h b (List.mem_cons_of_mem a hb))]

/-- `filter` only depends on the function's values on the list. -/
theorem filter_congr_mem {α : Type} {f g : α → Bool} :
    ∀ (l : List α), (∀ a ∈ l, f a = g a) → l.filter f = l.filter g := by
  intro l
  induction l with
  | nil => intro _; rfl
  | cons a t ih =>
    intro h
    rw [List.filter_cons, List.filter_cons, h a (List.mem_cons_self a t),
      ih (fun b hb => h b (List.mem_cons_of_mem a hb))]

/-- The length of an align-and-append walk's result is the padded total of
the chunk lengths. -/
theorem extendView_length : ∀ (L : List (List Nat)) (d : List Nat),
    (extendView d L).length = paddedTotal d.length (L.map List.length) := by
  intro L
  induction L with
  | nil => intro d; rfl
  | cons c cs ih =>
    intro d
    show (extendView (d ++ List.replicate (align d.length 4 - d.length) 0 ++ c) cs).length = _
    rw [ih]
    have hl : (d ++ List.replicate (align d.length 4 - d.length) 0 ++ c).length
        = align d.length 4 + c.length := by
      have h1 := le_align4 d.length
      simp [List.length_append]
      omega
    rw [hl]
    rfl

/-- A successful monadic map acts element-wise at every position. -/
theorem mapM_getElem {α β : Type} (g : α → Except Err β) :
    ∀ (l : List α) (l2 : List β), l.mapM g = Except.ok l2 →
      ∀ (i : Nat) (x : α), l[i]? = some x →
        ∃ y, g x = Except.ok y ∧ l2[i]? = some y := by
  intro l
  induction l with
  | nil =>
    intro l2 h i x hx
    simp at hx
  | cons a t ih =>
    intro l2 h i x hx
    rw [List.mapM_cons] at h
    obtain ⟨y, hy, h⟩ := exceptBindOk _ _ _ h
    obtain ⟨ys, hys, h⟩ := exceptBindOk _ _ _ h
    rw [exceptPureEq] at h
    cases h
    cases i with
    | zero =>
      simp only [List.getElem?_cons_zero, Option.some.injEq] at hx
      subst hx
      exact ⟨y, hy, by simp⟩
    | succ n =>
      simp only [List.getElem?_cons_succ] at hx
      obtain ⟨y2, hy2, hl2⟩ := ih ys hys n x hx
      exact ⟨y2, hy2, by simpa using hl2⟩

/-- Unfolding equation: byte offsets of a cons of accessor ids. -/
theorem accOffsets_cons (s : GltfState) (a : Nat) (ids : List Nat) :
    accOffsets s (a :: ids) =
      ((s.accHeap[a]?).map AccObj.byteOffset).getD 0 :: accOffsets s ids := rfl

/-- Unfolding equation: offsets of an align-and-append walk over a cons. -/
theorem offsetsFrom_cons (start l : Nat) (ls : List Nat) :
    offsetsFrom start (l :: ls) =
      align start 4 :: offsetsFrom (align start 4 + l) ls := rfl

/-- `accsOfView` only reads the accessor heap entries of its id list. -/
theorem accsOfView_congr (s s2 : GltfState) (A : List Nat)
    (h : ∀ aid ∈ A, s2.accHeap[aid]? = s.accHeap[aid]?) (v : Nat) :
    accsOfView s2 A v = accsOfView s A v := by
  unfold accsOfView
  exact filterMap_congr_mem A (fun aid hm => by rw [h aid hm])

/-- `accIdsOfView` only reads the accessor heap entries of its id list. -/
theorem accIdsOfView_congr (s s2 : GltfState) (A : List Nat)
    (h : ∀ aid ∈ A, s2.accHeap[aid]? = s.accHeap[aid]?) (v : Nat) :
    accIdsOfView s2 A v = accIdsOfView s A v := by
  unfold accIdsOfView
  exact filter_congr_mem A (fun aid hm => by rw [h aid hm])

/-- `viewsOfBuf` only reads the buffer-view slots of its index list. -/
theorem viewsOfBuf_congr (s s2 : GltfState) (V : List Nat)
    (h : ∀ vi ∈ V, s2.bufferViews[vi]? = s.bufferViews[vi]?) (b : Nat) :
    viewsOfBuf s2 V b = viewsOfBuf s V b := by
  unfold viewsOfBuf
  exact filterMap_congr_mem V (fun vi hm => by rw [h vi hm])

/-- The repack's accessor order is a permutation of the accessor array. -/
theorem sortedAccIds_perm (s : GltfState) (order : List Nat)
    (h : sortedAccIds s = Except.ok order) : order.Perm s.accessors := by
  unfold sortedAccIds at h
  obtain ⟨pairs, hpairs, h⟩ := exceptBindOk _ _ _ h
  rw [exceptPureEq] at h
  cases h
  have hfst : pairs.map Prod.fst = s.accessors := by
    apply mapM_fst _ _ s.accessors pairs hpairs
    intro x y hy
    obtain ⟨a, ha, hy⟩ := exceptBindOk _ _ _ hy
    rw [exceptPureEq] at hy
    cases hy
    rfl
  exact ((sortByKey_perm Prod.snd pairs).map Prod.fst).trans (by rw [hfst])

/-- The repack's view order is a permutation of the view positions. -/
theorem sortedViewIdxs_perm (s : GltfState) :
    (sortedViewIdxs s).Perm (List.range s.bufferViews.length) := by
  unfold sortedViewIdxs
  refine ((sortByKey_perm Prod.snd _).map Prod.fst).trans ?_
  rw [List.map_map]
  have h1 : ∀ a ∈ List.range s.bufferViews.length,
      (Prod.fst ∘ (fun vi => match s.bufferViews[vi]? with
        | some bv => (vi, (bv.buffer, bv.byteOffset))
        | none => (vi, (0, 0)))) a = id a := by
    intro a _
    simp only [Function.comp_apply]
    cases s.bufferViews[a]? <;> rfl
  rw [List.map_congr_left h1, List.map_id]

/-- Every index of the repack's view order addresses a view slot. -/
theorem sortedViewIdxs_mem_lt (s : GltfState) (vi : Nat)
    (h : vi ∈ sortedViewIdxs s) : vi < s.bufferViews.length :=
  List.mem_range.mp ((sortedViewIdxs_perm s).mem_iff.mp h)

/-- The repack's view order has no duplicates. -/
theorem sortedViewIdxs_nodup (s : GltfState) : (sortedViewIdxs s).Nodup :=
  ((sortedViewIdxs_perm s).symm).nodup (List.nodup_range _)

/-- The repack's view order only depends on the view count and each view's
`(buffer, byteOffset)` key. -/
theorem sortedViewIdxs_congr (s s2 : GltfState)
    (hlen : s2.bufferViews.length = s.bufferViews.length)
    (hkeys : ∀ vi, vi < s.bufferViews.length →
      (s2.bufferViews[vi]?).map (fun bv => (bv.buffer, bv.byteOffset)) =
      (s.bufferViews[vi]?).map (fun bv => (bv.buffer, bv.byteOffset))) :
    sortedViewIdxs s2 = sortedViewIdxs s := by
  unfold sortedViewIdxs
  rw [hlen]
  have h1 : ∀ vi ∈ List.range s.bufferViews.length,
      (match s2.bufferViews[vi]? with
        | some bv => (vi, (bv.buffer, bv.byteOffset))
        | none => (vi, (0, 0))) =
      (match s.bufferViews[vi]? with
        | some bv => (vi, (bv.buffer, bv.byteOffset))
        | none => (vi, (0, 0))) := by
    intro vi hvi
    have hk := hkeys vi (List.mem_range.mp hvi)
    cases h2 : s2.bufferViews[vi]? with
    | none =>
      cases hs : s.bufferViews[vi]? with
      | none => rfl
      | some bv =>
        rw [h2, hs] at hk
        exact absurd hk (by simp)
    | some bv2 =>
      cases hs : s.bufferViews[vi]? with
      | none =>
        rw [h2, hs] at hk
        exact absurd hk (by simp)
      | some bv =>
        rw [h2, hs] at hk
        simp only [Option.map_some', Option.some.injEq, Prod.mk.injEq] at hk
        simp [hk.1, hk.2]
  rw [List.map_congr_left h1]
/-- Full characterization of the accessor loop of the repack on a
duplicate-free id list: each buffer view's byte string grows by the
align-and-append walk over its accessors' data chunks, the visited
accessors receive exactly the offsets of that walk, unvisited accessor
slots are untouched, and only the accessor heap and the views change. -/
theorem repackAccFold_char :
    ∀ (A : List Nat) (s s1 : GltfState), A.Nodup →
      A.foldlM repackAccStep s = Except.ok s1 →
      (∀ v bv, s.bufferViews[v]? = some bv → ∀ d, bv.data = some d →
        s1.bufferViews[v]? =
          some { bv with data := some (extendView d (accsOfView s A v)) } ∧
        accOffsets s1 (accIdsOfView s A v) =
          offsetsFrom d.length ((accsOfView s A v).map List.length)) ∧
      (∀ j, j ∉ A → s1.accHeap[j]? = s.accHeap[j]?) ∧
      s1.bufferViews.length = s.bufferViews.length ∧
      s1 = { s with accHeap := s1.accHeap, bufferViews := s1.bufferViews } := by
  intro A
  induction A with
  | nil =>
    intro s s1 _ h
    rw [List.foldlM_nil, exceptPureEq] at h
    cases h
    refine ⟨?_, fun j _ => rfl, rfl, rfl⟩
    intro v bv hbv d hd
    refine ⟨?_, rfl⟩
    show s.bufferViews[v]? = some { bv with data := some d }
    rw [hbv, ← hd]
  | cons a0 rest ih =>
    intro s s1 hnd h
    rw [List.foldlM_cons] at h
    obtain ⟨smid, hstep, hrest⟩ := exceptBindOk _ _ _ h
    obtain ⟨acc, bv0, d0, ad0, hacc, hbv0, hd0, had0, hsmA, hsmV, hsmF⟩ :=
      repackAccStep_ok s a0 smid hstep
    have hndr : rest.Nodup := (List.nodup_cons.mp hnd).2
    have ha0nr : a0 ∉ rest := (List.nodup_cons.mp hnd).1
    obtain ⟨ihV, ihUn, ihLen, ihFrame⟩ := ih smid s1 hndr hrest
    have haidlt : a0 < s.accHeap.length := by
      by_contra hge
      rw [List.getElem?_eq_none_iff.mpr (Nat.le_of_not_lt hge)] at hacc
      exact absurd hacc (by simp)
    have hbvlt : acc.bufferView < s.bufferViews.length := by
      by_contra hge
      rw [List.getElem?_eq_none_iff.mpr (Nat.le_of_not_lt hge)] at hbv0
      exact absurd hbv0 (by simp)
    have hheapagree : ∀ aid ∈ rest, smid.accHeap[aid]? = s.accHeap[aid]? := by
      intro aid hm
      rw [hsmA, List.getElem?_set_ne (fun he => ha0nr (by rw [he]; exact hm))]
    have hAV := accsOfView_congr s smid rest hheapagree
    have hAI := accIdsOfView_congr s smid rest hheapagree
    refine ⟨?_, ?_, ?_, ?_⟩
    · intro v bv hbv d hd
      by_cases hv : acc.bufferView = v
      · subst hv
        have hbveq : bv0 = bv := Option.some.inj (hbv0.symm.trans hbv)
        subst hbveq
        have hdeq : d0 = d := Option.some.inj (hd0.symm.trans hd)
        subst hdeq
        have hcons : accsOfView s (a0 :: rest) acc.bufferView =
            ad0 :: accsOfView s rest acc.bufferView := by
          simp [accsOfView, List.filterMap_cons, hacc, had0]
        have hconsIds : accIdsOfView s (a0 :: rest) acc.bufferView =
            a0 :: accIdsOfView s rest acc.bufferView := by
          simp [accIdsOfView, List.filter_cons, hacc]
        have hsmidbv : smid.bufferViews[acc.bufferView]? =
            some { bv0 with data := some (d0 ++
              List.replicate (align d0.length 4 - d0.length) 0 ++ ad0) } := by
          rw [hsmV]
          exact List.getElem?_set_self hbvlt
        obtain ⟨ihV1, ihOff1⟩ := ihV acc.bufferView _ hsmidbv _ rfl
        have hlenD : (d0 ++ List.replicate (align d0.length 4 - d0.length) 0
            ++ ad0).length = align d0.length 4 + ad0.length := by
          have h1 := le_align4 d0.length
          simp [List.length_append]
          omega
        constructor
        · rw [ihV1, hAV acc.bufferView, hcons]
          rfl
        · rw [hAI acc.bufferView, hAV acc.bufferView, hlenD] at ihOff1
          have hhead : ((s1.accHeap[a0]?).map AccObj.byteOffset).getD 0 =
              align d0.length 4 := by
            rw [ihUn a0 ha0nr, hsmA, List.getElem?_set_self haidlt]
            rfl
          rw [hconsIds, hcons, accOffsets_cons, List.map_cons, offsetsFrom_cons,
            hhead, ihOff1]
      · have hsmidbv : smid.bufferViews[v]? = some bv := by
          rw [hsmV, List.getElem?_set_ne hv]
          exact hbv
        obtain ⟨ihV1, ihOff1⟩ := ihV v bv hsmidbv d hd
        have hskip : accsOfView s (a0 :: rest) v = accsOfView s rest v := by
          simp [accsOfView, List.filterMap_cons, hacc, hv]
        have hskipIds : accIdsOfView s (a0 :: rest) v = accIdsOfView s rest v := by
          simp [accIdsOfView, List.filter_cons, hacc, hv]
        constructor
        · rw [ihV1, hAV v, hskip]
        · rw [hAI v, hAV v] at ihOff1
          rw [hskipIds, hskip, ihOff1]
    · intro j hj
      have hja0 : a0 ≠ j := fun he => hj (he ▸ List.mem_cons_self a0 rest)
      rw [ihUn j (fun hm => hj (List.mem_cons_of_mem _ hm)), hsmA,
        List.getElem?_set_ne hja0]
    · rw [ihLen, hsmV, List.length_set]
    · rw [ihFrame, hsmF]
/-- Characterization of the buffer-view loop of the repack on a
duplicate-free index list: each buffer's byte string grows to the padded
total of its views' data chunk lengths, and every view keeps its
`byteLength` and `buffer` fields. -/
theorem repackViewFold_char :
    ∀ (V : List Nat) (s s1 : GltfState), V.Nodup →
      V.foldlM repackViewStep s = Except.ok s1 →
      (∀ (b : Nat) (buf : Buffer), s.buffers[b]? = some buf →
        ∀ (d : List Nat), buf.data = some d →
        ∃ buf1, s1.buffers[b]? = some buf1 ∧ ∃ bd, buf1.data = some bd ∧
          bd.length = paddedTotal d.length ((viewsOfBuf s V b).map List.length)) ∧
      (∀ (vi : Nat) (bv : BufferView), s.bufferViews[vi]? = some bv →
        ∃ bv1, s1.bufferViews[vi]? = some bv1 ∧
          bv1.byteLength = bv.byteLength ∧ bv1.buffer = bv.buffer) ∧
      s1 = { s with buffers := s1.buffers, bufferViews := s1.bufferViews } := by
  intro V
  induction V with
  | nil =>
    intro s s1 _ h
    rw [List.foldlM_nil, exceptPureEq] at h
    cases h
    refine ⟨?_, fun vi bv hbv => ⟨bv, hbv, rfl, rfl⟩, rfl⟩
    intro b buf hb d hd
    exact ⟨buf, hb, d, hd, rfl⟩
  | cons vi0 rest ih =>
    intro s s1 hnd h
    rw [List.foldlM_cons] at h
    obtain ⟨smid, hstep, hrest⟩ := exceptBindOk _ _ _ h
    obtain ⟨bv0, buf0, d0, c0, hbv, hbuf, hbfd, hbvd, hal, hsmB, hsmV, hsmF⟩ :=
      repackViewStep_ok s vi0 smid hstep
    have hndr : rest.Nodup := (List.nodup_cons.mp hnd).2
    have hvi0nr : vi0 ∉ rest := (List.nodup_cons.mp hnd).1
    obtain ⟨ihB, ihV, ihFrame⟩ := ih smid s1 hndr hrest
    have hvi0lt : vi0 < s.bufferViews.length := by
      by_contra hge
      rw [List.getElem?_eq_none_iff.mpr (Nat.le_of_not_lt hge)] at hbv
      exact absurd hbv (by simp)
    have hbuflt : bv0.buffer < s.buffers.length := by
      by_contra hge
      rw [List.getElem?_eq_none_iff.mpr (Nat.le_of_not_lt hge)] at hbuf
      exact absurd hbuf (by simp)
    have hviewagree : ∀ vi ∈ rest, smid.bufferViews[vi]? = s.bufferViews[vi]? := by
      intro vi hm
      rw [hsmV, List.getElem?_set_ne (fun he => hvi0nr (by rw [he]; exact hm))]
    have hVB := viewsOfBuf_congr s smid rest hviewagree
    have hD1len : (d0 ++ (c0 ++ List.replicate
        ((d0.length : Int) - (align d0.length 4 : Int)).toNat 0)).length =
        align d0.length 4 + c0.length := by
      rw [hal]
      simp [List.length_append]
    refine ⟨?_, ?_, ?_⟩
    · intro b buf hb d hd
      by_cases hbb : bv0.buffer = b
      · subst hbb
        have hbufeq : buf0 = buf := Option.some.inj (hbuf.symm.trans hb)
        subst hbufeq
        have hdeq : d0 = d := Option.some.inj (hbfd.symm.trans hd)
        subst hdeq
        have hsmidbuf : smid.buffers[bv0.buffer]? = some { buf0 with
            data := some (d0 ++ (c0 ++ List.replicate
              ((d0.length : Int) - (align d0.length 4 : Int)).toNat 0)) } := by
          rw [hsmB]
          exact List.getElem?_set_self hbuflt
        obtain ⟨buf1, h1, bd, hbd, hlen⟩ := ihB bv0.buffer _ hsmidbuf _ rfl
        have hconsV : viewsOfBuf s (vi0 :: rest) bv0.buffer =
            c0 :: viewsOfBuf s rest bv0.buffer := by
          simp [viewsOfBuf, List.filterMap_cons, hbv, hbvd]
        refine ⟨buf1, h1, bd, hbd, ?_⟩
        rw [hlen, hVB bv0.buffer, hconsV, hD1len]
        rfl
      · have hsmidbuf : smid.buffers[b]? = some buf := by
          rw [hsmB, List.getElem?_set_ne hbb]
          exact hb
        obtain ⟨buf1, h1, bd, hbd, hlen⟩ := ihB b buf hsmidbuf d hd
        have hskipV : viewsOfBuf s (vi0 :: rest) b = viewsOfBuf s rest b := by
          simp [viewsOfBuf, List.filterMap_cons, hbv, hbb]
        refine ⟨buf1, h1, bd, hbd, ?_⟩
        rw [hlen, hVB b, hskipV]
    · intro vi bv hbv2
      by_cases hvv : vi0 = vi
      · subst hvv
        have hbveq : bv0 = bv := Option.some.inj (hbv.symm.trans hbv2)
        subst hbveq
        have hsmid : smid.bufferViews[vi0]? =
            some { bv0 with byteOffset := align d0.length 4, data := none } := by
          rw [hsmV]
          exact List.getElem?_set_self hvi0lt
        obtain ⟨bv1, h1, hbl, hbf⟩ := ihV vi0 _ hsmid
        exact ⟨bv1, h1, hbl, hbf⟩
      · have hsmid : smid.bufferViews[vi]? = some bv := by
          rw [hsmV, List.getElem?_set_ne hvv]
          exact hbv2
        exact ihV vi bv hsmid
    · rw [ihFrame, hsmF]
/-- C5: after a reverse materialization (`_remove_accessor_data`), every
buffer view's `byteLength` is the padded sum of its accessors' data spans,
every buffer's byte string length is the padded sum of its views' new
`byteLength`s (in repack order), and the accessors of one view, taken in
the repack's `(bufferView, byteOffset)` order, receive non-decreasing byte
offsets. -/
theorem C5_repack_layout (s s2 : GltfState) (hnd : s.accessors.Nodup)
    (h : removeAccessorDataCore s = Except.ok s2) :
    ∃ accOrder, sortedAccIds s = Except.ok accOrder ∧
      (∀ (v : Nat) (bv : BufferView), s.bufferViews[v]? = some bv →
        ∃ bv2, s2.bufferViews[v]? = some bv2 ∧
          bv2.byteLength = paddedTotal 0 (accSpans s accOrder v) ∧
          List.Chain' (· ≤ ·) (accOffsets s2 (accIdsOfView s accOrder v))) ∧
      (∀ (b : Nat) (buf : Buffer), s.buffers[b]? = some buf →
        ∃ buf2, s2.buffers[b]? = some buf2 ∧ ∃ bd, buf2.data = some bd ∧
          bd.length = paddedTotal 0 (bufViewSpans s s2 b)) := by
  simp only [removeAccessorDataCore] at h
  set sA : GltfState := { s with
    bufferViews := s.bufferViews.map (fun bv => { bv with data := some [] }) } with hsA
  obtain ⟨accOrder, hord, h⟩ := exceptBindOk _ _ _ h
  obtain ⟨sB, hfoldA, h⟩ := exceptBindOk _ _ _ h
  obtain ⟨newViews, hnv, h⟩ := exceptBindOk _ _ _ h
  set sD : GltfState := { sB with
    bufferViews := newViews,
    buffers := sB.buffers.map (fun b => { b with data := some [] }) } with hsD
  have hordS : sortedAccIds s = Except.ok accOrder := hord
  have hndO : accOrder.Nodup := ((sortedAccIds_perm _ accOrder hord).symm).nodup hnd
  obtain ⟨hViews, hAccUn, hLenA, hFrameA⟩ := repackAccFold_char accOrder sA sB hndO hfoldA
  obtain ⟨hBufs, hViewPres, hFrameE⟩ :=
    repackViewFold_char _ _ s2 (sortedViewIdxs_nodup _) h
  have hsAacc : sA.accHeap = s.accHeap := by rw [hsA]
  have hsAviews : sA.bufferViews =
      s.bufferViews.map (fun bv => { bv with data := some [] }) := by rw [hsA]
  have hsDviews : sD.bufferViews = newViews := by rw [hsD]
  have hsDaccH : sD.accHeap = sB.accHeap := by rw [hsD]
  have hsDbufs : sD.buffers = sB.buffers.map (fun b => { b with data := some [] }) := by
    rw [hsD]
  have hsBbufs : sB.buffers = s.buffers := by rw [hFrameA, hsA]
  have hAcongr : ∀ v, accsOfView sA accOrder v = accsOfView s accOrder v :=
    fun v => accsOfView_congr s sA accOrder (fun aid _ => by rw [hsAacc]) v
  have hIcongr : ∀ v, accIdsOfView sA accOrder v = accIdsOfView s accOrder v :=
    fun v => accIdsOfView_congr s sA accOrder (fun aid _ => by rw [hsAacc]) v
  have hIdx : ∀ v, v < s.bufferViews.length →
      ∃ bv, s.bufferViews[v]? = some bv ∧
        sD.bufferViews[v]? = some { bv with
          byteLength := (extendView [] (accsOfView sA accOrder v)).length,
          data := some (extendView [] (accsOfView sA accOrder v)) } := by
    intro v hv
    cases hx : s.bufferViews[v]? with
    | none =>
      rw [List.getElem?_eq_none_iff] at hx
      omega
    | some bv =>
      refine ⟨bv, rfl, ?_⟩
      have hvA : sA.bufferViews[v]? = some { bv with data := some [] } := by
        rw [hsAviews, List.getElem?_map, hx]
        rfl
      obtain ⟨hB_v, _⟩ := hViews v { bv with data := some [] } hvA [] rfl
      obtain ⟨y, hgy, hnewv⟩ := mapM_getElem _ sB.bufferViews newViews hnv v _ hB_v
      simp only [req, exceptOkBind, exceptPureEq] at hgy
      injection hgy with hy
      subst hy
      rw [hsDviews]
      exact hnewv
  have hlenD : sD.bufferViews.length = s.bufferViews.length := by
    rw [hsDviews, mapM_ok_length _ sB.bufferViews newViews hnv, hLenA, hsAviews,
      List.length_map]
  have hVD : sortedViewIdxs sD = sortedViewIdxs s := by
    apply sortedViewIdxs_congr s sD hlenD
    intro vi hvi
    obtain ⟨bv, hlook, hDlook⟩ := hIdx vi hvi
    rw [hDlook, hlook]
    rfl
  refine ⟨accOrder, hordS, ?_, ?_⟩
  · intro v bv hlook
    have hvlt : v < s.bufferViews.length := by
      by_contra hge
      rw [List.getElem?_eq_none_iff.mpr (Nat.le_of_not_lt hge)] at hlook
      exact absurd hlook (by simp)
    obtain ⟨bv', hlook', hDlook⟩ := hIdx v hvlt
    have hbv' : bv' = bv := Option.some.inj (hlook'.symm.trans hlook)
    subst hbv'
    obtain ⟨bv2, hlook2, hbl, _⟩ := hViewPres v _ hDlook
    refine ⟨bv2, hlook2, ?_, ?_⟩
    · have hblE : bv2.byteLength = (extendView [] (accsOfView sA accOrder v)).length := hbl
      rw [hblE, extendView_length, hAcongr v]
      rfl
    · have hAH : s2.accHeap = sB.accHeap := by
        rw [hFrameE]
      have hvA : sA.bufferViews[v]? = some { bv' with data := some [] } := by
        rw [hsAviews, List.getElem?_map, hlook']
        rfl
      obtain ⟨_, hOff_v⟩ := hViews v { bv' with data := some [] } hvA [] rfl
      rw [hIcongr v, hAcongr v] at hOff_v
      have hmapeq : accOffsets s2 (accIdsOfView s accOrder v) =
          accOffsets sB (accIdsOfView s accOrder v) := by
        simp only [accOffsets, hAH]
      have hOffEq : accOffsets s2 (accIdsOfView s accOrder v) =
          offsetsFrom 0 (accSpans s accOrder v) := by
        rw [hmapeq, hOff_v]
        rfl
      rw [hOffEq]
      exact offsetsFrom_chain _ 0
  · intro b buf hlookB
    have hD_b : sD.buffers[b]? = some { buf with data := some [] } := by
      rw [hsDbufs, hsBbufs, List.getElem?_map, hlookB]
      rfl
    obtain ⟨buf2, hlook2, bd, hbd, hbdlen⟩ := hBufs b _ hD_b [] rfl
    refine ⟨buf2, hlook2, bd, hbd, ?_⟩
    rw [hbdlen]
    have hlist : (viewsOfBuf sD (sortedViewIdxs sD) b).map List.length =
        bufViewSpans s s2 b := by
      rw [hVD]
      unfold viewsOfBuf bufViewSpans
      rw [List.map_filterMap]
      apply filterMap_congr_mem
      intro vi hm
      have hvi := sortedViewIdxs_mem_lt s vi hm
      obtain ⟨bvv, hlookv, hDlookv⟩ := hIdx vi hvi
      obtain ⟨bv2v, hlook2v, hblv, hbufv⟩ := hViewPres vi _ hDlookv
      rw [hDlookv, hlookv, hlook2v]
      by_cases hbb : bvv.buffer = b
      · simp [hbb, hblv]
      · simp [hbb]
    rw [hlist]
    rfl
/-- Witness: the repack of the concrete materialized document `D5` succeeds
and, by `C5_repack_layout`, satisfies the padded-span length equations and
the offset monotonicity. -/
theorem C5_witness_concrete :
    ∃ s2, removeAccessorDataCore D5 = Except.ok s2 ∧
      ∃ accOrder, sortedAccIds D5 = Except.ok accOrder ∧
        (∀ (v : Nat) (bv : BufferView), D5.bufferViews[v]? = some bv →
          ∃ bv2, s2.bufferViews[v]? = some bv2 ∧
            bv2.byteLength = paddedTotal 0 (accSpans D5 accOrder v) ∧
            List.Chain' (· ≤ ·) (accOffsets s2 (accIdsOfView D5 accOrder v))) ∧
        (∀ (b : Nat) (buf : Buffer), D5.buffers[b]? = some buf →
          ∃ buf2, s2.buffers[b]? = some buf2 ∧ ∃ bd, buf2.data = some bd ∧
            bd.length = paddedTotal 0 (bufViewSpans D5 s2 b)) := by
  have hOk : (removeAccessorDataCore D5).isOk = true := rfl
  cases hres : removeAccessorDataCore D5 with
  | error e =>
    rw [hres] at hOk
    exact absurd hOk (by simp [Except.isOk, Except.toBool])
  | ok s2 =>
    exact ⟨s2, rfl, C5_repack_layout D5 s2 (by decide) hres⟩
/-- An array read never raises `NotImplementedError`. -/
theorem arrGet_ne_notImpl {α : Type} (l : List α) (i : Nat) :
    arrGet l i ≠ Except.error Err.notImplemented := by
  unfold arrGet
  cases l[i]? <;> simp

/-- A Python-style index never raises `NotImplementedError`. -/
theorem pyIndex_ne_notImpl {α : Type} (l : List α) (i : Int) :
    pyIndex l i ≠ Except.error Err.notImplemented := by
  unfold pyIndex
  by_cases h1 : 0 ≤ i
  · rw [if_pos h1]
    exact arrGet_ne_notImpl l i.toNat
  · rw [if_neg h1]
    by_cases h2 : 0 ≤ (l.length : Int) + i
    · rw [if_pos h2]
      exact arrGet_ne_notImpl l ((l.length : Int) + i).toNat
    · rw [if_neg h2]
      simp

/-- A monadic map over a function that never raises a given error never
raises that error either. -/
theorem mapM_ne_error {α β : Type} (f : α → Except Err β) (e : Err)
    (hf : ∀ a, f a ≠ Except.error e) :
    ∀ l : List α, l.mapM f ≠ Except.error e := by
  intro l
  induction l with
  | nil =>
    rw [List.mapM_nil, exceptPureEq]
    simp
  | cons a t ih =>
    rw [List.mapM_cons]
    cases h1 : f a with
    | error e1 =>
      simp only [h1, exceptErrorBind]
      intro hc
      injection hc with hh
      exact hf a (by rw [h1, hh])
    | ok b =>
      simp only [h1, exceptOkBind]
      cases h2 : t.mapM f with
      | error e2 =>
        simp only [h2, exceptErrorBind]
        intro hc
        injection hc with hh
        exact ih (by rw [h2, hh])
      | ok bs =>
        simp only [h2, exceptOkBind, exceptPureEq]
        simp

/-- The triangle fold of `find_with_union` never raises
`NotImplementedError` when the point lookup never does. -/
theorem fwuFold_ne_notImpl {P : Type} [DecidableEq P]
    (gp : List Int → Except Err (List P))
    (hgp : ∀ t, gp t ≠ Except.error Err.notImplemented) :
    ∀ (l : List (Nat × List Int)) (st : List (P × Nat) × UnionFind),
      l.foldlM (fwuTriStep gp) st ≠ Except.error Err.notImplemented := by
  intro l
  induction l with
  | nil =>
    intro st
    rw [List.foldlM_nil, exceptPureEq]
    simp
  | cons it rest ih =>
    intro st
    rw [List.foldlM_cons]
    cases h1 : gp it.2 with
    | error e1 =>
      have hstep : fwuTriStep gp st it = Except.error e1 := by
        simp only [fwuTriStep, h1, exceptErrorBind]
      rw [hstep, exceptErrorBind]
      intro hc
      injection hc with hh
      exact hgp it.2 (by rw [h1, hh])
    | ok pts =>
      have hstep : fwuTriStep gp st it =
          Except.ok (pts.foldl (fwuPointStep it.1) (st.1, st.2.add)) := by
        simp only [fwuTriStep, h1, exceptOkBind, exceptPureEq]
      rw [hstep, exceptOkBind]
      exact ih _

/-- `find_with_union` never raises `NotImplementedError` when the point
lookup never does. -/
theorem find_with_union_ne_notImpl {P : Type} [DecidableEq P]
    (indices : List (List Int)) (gp : List Int → Except Err (List P))
    (hgp : ∀ t, gp t ≠ Except.error Err.notImplemented) :
    find_with_union indices gp ≠ Except.error Err.notImplemented := by
  unfold find_with_union
  cases h1 : List.foldlM (fwuTriStep gp)
      (([] : List (P × Nat)), ({ labels := [] } : UnionFind)) indices.enum with
  | error e1 =>
    simp only [h1, exceptErrorBind]
    intro hc
    injection hc with hh
    exact fwuFold_ne_notImpl gp hgp indices.enum _ (by rw [h1, hh])
  | ok st =>
    simp only [h1, exceptOkBind, exceptPureEq]
    simp
/-- C8: once the Splitter has read a primitive's data, a primitive mode
other than 4 (triangle list) makes `_find_connected_components` fail with
`NotImplementedError` (the spec's `UnsupportedPrimitiveMode`), and through
it `split_disconnected_mesh` aborts that mesh's processing with the same
error; with mode 4 that error is never raised. -/
theorem C8_mode_check (s : GltfState) (m p : Nat) (mode : Nat)
    (hmode : (findCCData s m p >>= fun q =>
        q.1.getPrim q.2.1 >>= fun prim => req prim.mode) = Except.ok mode) :
    (mode ≠ 4 → findConnectedComponents s m p = Except.error Err.notImplemented) ∧
    (mode = 4 → findConnectedComponents s m p ≠ Except.error Err.notImplemented) ∧
    (∀ (fuel : Nat) (prims0 : List Nat),
      (arrGet s.meshes m >>= fun mid =>
        s.getMesh mid >>= fun mesh => req mesh.primitives) = Except.ok prims0 →
      prims0.length ≤ 1 → p = 0 → mode ≠ 4 →
      splitDisconnectedMesh (fuel + 1) s m = Except.error Err.notImplemented) := by
  obtain ⟨⟨s2, pid, positions, inds⟩, hq, hrest⟩ := exceptBindOk _ _ _ hmode
  have hrest2 : (s2.getPrim pid >>= fun prim => req prim.mode) = Except.ok mode := hrest
  obtain ⟨prim, hprim, hm⟩ := exceptBindOk _ _ _ hrest2
  have hccNe : mode ≠ 4 →
      findConnectedComponents s m p = Except.error Err.notImplemented := by
    intro hne
    simp only [findConnectedComponents, hq, exceptOkBind, hprim, hm, if_neg hne]
  refine ⟨hccNe, ?_, ?_⟩
  · intro h4
    subst h4
    simp only [findConnectedComponents, hq, exceptOkBind, hprim, hm, reduceIte]
    cases h5 : find_with_union (pyGroupby inds 3)
        (fun tri => tri.mapM (fun i => pyIndex positions i)) with
    | error e =>
      simp only [h5, exceptErrorBind]
      intro hc
      injection hc with hh
      exact find_with_union_ne_notImpl _ _
        (fun t => mapM_ne_error _ _ (fun i => pyIndex_ne_notImpl positions i) t)
        (by rw [h5, hh])
    | ok comps =>
      simp only [h5, exceptOkBind, exceptPureEq]
      simp
  · intro fuel prims0 hpr hle hp0 hne
    subst hp0
    obtain ⟨mid, hmid, hpr⟩ := exceptBindOk _ _ _ hpr
    obtain ⟨mesh, hmesh, hprims⟩ := exceptBindOk _ _ _ hpr
    have hccE := hccNe hne
    simp only [splitDisconnectedMesh, hmid, exceptOkBind, hmesh, hprims,
      if_neg (show ¬(prims0.length > 1) from by omega), exceptPureEq,
      hccE, exceptErrorBind]

/-- Witness: on the line-mode document `D8` (the two-triangle document with
primitive mode 1), `C8_mode_check` yields the `NotImplementedError` failure
of both `_find_connected_components` and `split_disconnected_mesh`; on the
triangle-mode document `D3` it excludes that error. -/
theorem C8_witness_concrete :
    findConnectedComponents D8 0 0 = Except.error Err.notImplemented ∧
    findConnectedComponents D3 0 0 ≠ Except.error Err.notImplemented ∧
    splitDisconnectedMesh 5 D8 0 = Except.error Err.notImplemented := by
  have h8 := C8_mode_check D8 0 0 1 rfl
  have h3 := C8_mode_check D3 0 0 4 rfl
  exact ⟨h8.1 (by decide), h3.2.1 rfl,
    h8.2.2 4 [0] rfl (by decide) rfl (by decide)⟩
